import Mathlib

/-!
# libpbuffer (`src/pbuffer.c`, `src/pbuffer.h`): a growable byte buffer

Shallow embedding of the buffer operations and proofs about them.

Platform model (LP64): `size_t` is a 64-bit unsigned integer, `int` a 32-bit
two's-complement integer, `unsigned int` a 32-bit unsigned integer.  Values of
type `size_t` are naturals, and every arithmetic operation the C code performs
on them is reduced modulo `2 ^ 64` explicitly.

Memory model.  The heap block that `buffer->start` points to is the list of its
bytes (`pbuffer.start`); `buffer->data` is kept as its offset from
`buffer->start` (`pbuffer.data`, the value of the macro `pbuffer_offset`).
A library call that would read or write outside the block it is given has
undefined behaviour in C; the model returns `none` there, so `some` means that
every access stayed inside its block.  `realloc` and `malloc` are taken to
succeed (the `NULL` branch of `pbuffer_grow` is not modelled); the bytes they
hand out uninitialised are the marker byte `UNINIT`, which is not zero.
Bytes are naturals; the copy functions move them unchanged.

The two formatting functions contain a `while` loop.  They are run for a bounded
number of `vsnprintf` calls and report an `outcome`: `returned` with the final
state, `undefined` when an access left its block, or `looping` when the bound was
reached inside the loop.  The format and its arguments are represented by the
byte string `r` they render to.

Theorems about a call state what every defined result (`some`) satisfies and,
separately, that the call is defined; the latter needs the capacity to be below
`2 ^ 61`, so that the two doublings of `pbuffer_assure` do not wrap a `size_t`.
-/

namespace Pbuffer

/-! ## Machine integers -/

/-- Number of values of a `size_t`. -/
def SIZE_MOD : Nat := 2 ^ 64

/-- Conversion of a signed value (`ptrdiff_t`, `int`) to `size_t`. -/
def to_size (i : Int) : Nat := (i % (SIZE_MOD : Int)).toNat

/-- Conversion of a `size_t` to `int`: the low 32 bits, read as two's complement. -/
def to_int (n : Nat) : Int :=
  if n % 2 ^ 32 < 2 ^ 31 then ((n % 2 ^ 32 : Nat) : Int) else ((n % 2 ^ 32 : Nat) : Int) - 2 ^ 32

/-! ## Memory blocks -/

/-- Content of a byte the allocator hands out without initialising it. -/
def UNINIT : Nat := 170

/-- The block returned by `malloc(n)`. -/
def malloc (n : Nat) : List Nat := List.replicate n UNINIT

/-- The block returned by `realloc(block, n)`: the old bytes up to the smaller of the two
sizes, followed by uninitialised bytes. -/
def realloc (block : List Nat) (n : Nat) : List Nat :=
  block.take n ++ List.replicate (n - block.length) UNINIT

/-- Call `memset(block + off, c, n)`. -/
def memset (block : List Nat) (off : Nat) (c : Nat) (n : Nat) : Option (List Nat) :=
  if off + n ≤ block.length then
    some (block.take off ++ List.replicate n c ++ block.drop (off + n))
  else none

/-- Call `memcpy(block + off, src, n)` where `src` is the readable memory at the source
pointer (also used for `strncpy` of exactly `strlen` bytes). -/
def memcpy (block : List Nat) (off : Nat) (src : List Nat) (n : Nat) : Option (List Nat) :=
  if off + n ≤ block.length ∧ n ≤ src.length then
    some (block.take off ++ src.take n ++ block.drop (off + n))
  else none

/-- Call `memmove(block + dst, block + src, n)` inside one block. -/
def memmove (block : List Nat) (dst : Nat) (src : Nat) (n : Nat) : Option (List Nat) :=
  if dst + n ≤ block.length ∧ src + n ≤ block.length then
    some (block.take dst ++ (block.drop src).take n ++ block.drop (dst + n))
  else none

/-! ## The buffer -/

/-- Constant `PBUFFER_MIN` of `pbuffer.h`. -/
def PBUFFER_MIN : Nat := 120

/-- The `struct pbuffer`: `start` is the heap block, `data` the offset of the data pointer
from the start of the block. -/
structure pbuffer where
  length : Nat
  allocated : Nat
  start : List Nat
  data : Nat
  deriving DecidableEq, Repr

/-- Macro `pbuffer_offset(a)`: `a->data - a->start`. -/
def pbuffer_offset (a : pbuffer) : Nat := a.data

/-- Macro `pbuffer_end(a)`: `a->data + a->length`, as an offset from `a->start`. -/
def pbuffer_end (a : pbuffer) : Nat := a.data + a.length

/-- Macro `pbuffer_unused(a)`: `a->start + a->allocated - pbuffer_end(a)`, a `ptrdiff_t`. -/
def pbuffer_unused (a : pbuffer) : Int := (a.allocated : Int) - (pbuffer_end a : Int)

/-- The logical content: the `length` bytes at `data`. -/
def pbuffer_content (a : pbuffer) : List Nat := (a.start.drop a.data).take a.length

/-- Function `pbuffer_grow`; returns the new state and the returned `size_t`. -/
def pbuffer_grow (buffer : pbuffer) (size : Nat) : Option (pbuffer × Nat) :=
  if size < to_size (pbuffer_unused buffer) then
    some (buffer, buffer.allocated)
  else
    let newsize := ((buffer.allocated * 2) % SIZE_MOD) ||| PBUFFER_MIN
    let data_offset := buffer.data
    let start := realloc buffer.start newsize
    match memset start buffer.allocated 0 (to_size ((newsize : Int) - (buffer.allocated : Int))) with
    | none => none
    | some start =>
      some ({ buffer with start := start, data := data_offset, allocated := newsize }, newsize)

/-- Function `pbuffer_init`. -/
def pbuffer_init : Option pbuffer :=
  let data := malloc PBUFFER_MIN
  match memset data 0 0 PBUFFER_MIN with
  | none => none
  | some data => some { length := 0, allocated := PBUFFER_MIN, start := data, data := 0 }

/-- Function `pbuffer_assure`; `ret` is the local `int`, compared with `size` after the
usual conversion to `size_t`. -/
def pbuffer_assure (buffer : pbuffer) (size : Nat) : Option pbuffer :=
  let first : Option (pbuffer × Int) :=
    if to_size (pbuffer_unused buffer) < size then
      match pbuffer_grow buffer size with
      | none => none
      | some (b, r) => some (b, to_int r)
    else some (buffer, 0)
  match first with
  | none => none
  | some (b, ret) =>
    if to_size ret < size then
      match pbuffer_grow b (((size * 2) % SIZE_MOD) ||| PBUFFER_MIN) with
      | none => none
      | some (b2, _) => some b2
    else some b

/-- Function `pbuffer_add`; `data` is the memory readable at the source pointer. -/
def pbuffer_add (buffer : pbuffer) (data : List Nat) (size : Nat) : Option pbuffer :=
  match pbuffer_assure buffer ((size + buffer.length) % SIZE_MOD) with
  | none => none
  | some b =>
    match memcpy b.start (pbuffer_end b) data size with
    | none => none
    | some start => some { b with start := start, length := (b.length + size) % SIZE_MOD }

/-- The four bytes in memory of `htonl(num)`: `num` most significant byte first. -/
def htonl (num : Nat) : List Nat :=
  [num / 2 ^ 24 % 256, num / 2 ^ 16 % 256, num / 2 ^ 8 % 256, num % 256]

/-- Function `pbuffer_add_uint`; `sizeof(unsigned int)` is 4. -/
def pbuffer_add_uint (buffer : pbuffer) (num : Nat) : Option pbuffer :=
  let tmp := htonl (num % 2 ^ 32)
  pbuffer_add buffer tmp 4

/-- Function `pbuffer_consume`. -/
def pbuffer_consume (buffer : pbuffer) : Option pbuffer :=
  if buffer.length < to_size (pbuffer_offset buffer : Int) then
    match memmove buffer.start 0 buffer.data buffer.length with
    | none => none
    | some start => some { buffer with start := start, data := 0 }
  else some buffer

/-- Function `pbuffer_safe_shift`. -/
def pbuffer_safe_shift (buffer : pbuffer) (size : Nat) : Option pbuffer :=
  if size ≤ 0 then some buffer
  else
    match pbuffer_assure buffer size with
    | none => none
    | some b =>
      some { b with data := b.data + size, length := to_size ((b.length : Int) - (size : Int)) }

/-- Function `pbuffer_shift`. -/
def pbuffer_shift (buffer : pbuffer) (size : Nat) : Option pbuffer :=
  match pbuffer_safe_shift buffer size with
  | none => none
  | some b => pbuffer_consume b

/-- Function `pbuffer_extract`; `dest` is the destination memory before the call, the
second component of the result is the destination memory afterwards. -/
def pbuffer_extract (buffer : pbuffer) (dest : List Nat) (len : Nat) :
    Option (pbuffer × List Nat) :=
  if len > buffer.length then some (buffer, dest)
  else
    match memcpy dest 0 (buffer.start.drop buffer.data) len with
    | none => none
    | some dest =>
      match pbuffer_shift buffer len with
      | none => none
      | some b => some (b, dest)

/-- Function `pbuffer_safe_extract`. -/
def pbuffer_safe_extract (buffer : pbuffer) (dest : List Nat) (len : Nat) :
    Option (pbuffer × List Nat) :=
  if len > buffer.length then some (buffer, dest)
  else
    match memcpy dest 0 (buffer.start.drop buffer.data) len with
    | none => none
    | some dest =>
      match pbuffer_safe_shift buffer len with
      | none => none
      | some b => some (b, dest)

/-! ## Strings and formatted output -/

/-- Call `strlen(data)` where `data` is the readable memory at the pointer: the number of
bytes before the first zero byte; without a zero byte the scan leaves the memory. -/
def strlen (data : List Nat) : Option Nat :=
  if 0 ∈ data then some (data.takeWhile (fun c => c ≠ 0)).length else none

/-- Call `strncpy(block + off, src, n)`: the bytes of `src` up to `n` of them, and when the
string ends earlier, zero bytes up to `n`. -/
def strncpy (block : List Nat) (off : Nat) (src : List Nat) (n : Nat) : Option (List Nat) :=
  let chars := src.takeWhile (fun c => c ≠ 0)
  if n ≤ chars.length then memcpy block off src n
  else if chars.length < src.length then
    memcpy block off (chars ++ List.replicate (n - chars.length) 0) n
  else none

/-- The value `vsnprintf` returns for the rendered string `r`: its length, or `-1` when
the length does not fit an `int`. -/
def vsnprintf_ret (r : List Nat) : Int :=
  if r.length < 2 ^ 31 then (r.length : Int) else -1

/-- Call `vsnprintf(block + off, size, fmt, va)` where the format renders to `r`: at most
`size - 1` bytes of `r` and a terminating zero byte are stored (nothing when `size` is 0);
returns the block and the returned `int`. -/
def vsnprintf (block : List Nat) (off : Nat) (size : Nat) (r : List Nat) :
    Option (List Nat × Int) :=
  if size = 0 then some (block, vsnprintf_ret r)
  else
    match memcpy block off (r.take (size - 1) ++ [0]) ((r.take (size - 1)).length + 1) with
    | none => none
    | some block => some (block, vsnprintf_ret r)

/-- Function `pbuffer_set`. -/
def pbuffer_set (buffer : pbuffer) (data : List Nat) (size : Nat) : Option pbuffer :=
  match pbuffer_assure buffer size with
  | none => none
  | some b =>
    match memcpy b.start b.data data size with
    | none => none
    | some start => some { b with start := start, length := size }

/-- What a bounded run of a function with a loop has reached. -/
inductive outcome where
  | returned (b : pbuffer)
  | undefined
  | looping
  deriving DecidableEq, Repr

/-- The `while` loop of `pbuffer_sprintf` and the statement after it, run for at most
`fuel` calls of `vsnprintf`; `len` is the local `int`, `r` the rendered string. -/
def pbuffer_sprintf_loop : Nat → pbuffer → Int → List Nat → outcome
  | 0, _, _, _ => outcome.looping
  | fuel + 1, buffer, len, r =>
    match vsnprintf buffer.start buffer.data (to_size len) r with
    | none => outcome.undefined
    | some (start, needed) =>
      if needed > len then
        match pbuffer_assure { buffer with start := start } (to_size needed) with
        | none => outcome.undefined
        | some b => pbuffer_sprintf_loop fuel b len r
      else
        outcome.returned { buffer with
          start := start, length := (buffer.length + to_size needed) % SIZE_MOD }

/-- Function `pbuffer_sprintf`, with the rendered string `r` in place of the format and
its arguments. -/
def pbuffer_sprintf (fuel : Nat) (buffer : pbuffer) (r : List Nat) : outcome :=
  let len := to_int buffer.allocated
  pbuffer_sprintf_loop fuel buffer len r

/-- The `while` loop of `pbuffer_add_sprintf` and the statement after it. -/
def pbuffer_add_sprintf_loop : Nat → pbuffer → Int → List Nat → outcome
  | 0, _, _, _ => outcome.looping
  | fuel + 1, buffer, len, r =>
    match vsnprintf buffer.start (pbuffer_end buffer) (to_size len) r with
    | none => outcome.undefined
    | some (start, needed) =>
      if needed > len then
        match pbuffer_assure { buffer with start := start }
            (to_size ((buffer.length : Int) + needed)) with
        | none => outcome.undefined
        | some b => pbuffer_add_sprintf_loop fuel b len r
      else
        outcome.returned { buffer with
          start := start, length := (buffer.length + to_size needed) % SIZE_MOD }

/-- Function `pbuffer_add_sprintf`. -/
def pbuffer_add_sprintf (fuel : Nat) (buffer : pbuffer) (r : List Nat) : outcome :=
  let len := to_int (to_size (pbuffer_unused buffer))
  pbuffer_add_sprintf_loop fuel buffer len r

/-- Function `pbuffer_strcpy`; `data` is the readable memory at the string pointer. -/
def pbuffer_strcpy (buffer : pbuffer) (data : List Nat) : Option pbuffer :=
  match strlen data with
  | none => none
  | some size =>
    match pbuffer_assure buffer size with
    | none => none
    | some b =>
      match strncpy b.start b.data data size with
      | none => none
      | some start =>
        match memset start (b.data + size) 0
            (to_size ((b.allocated : Int) - (size : Int))) with
        | none => none
        | some start => some { b with start := start, length := size }

/-- Function `pbuffer_strcat`. -/
def pbuffer_strcat (buffer : pbuffer) (data : List Nat) : Option pbuffer :=
  let size := buffer.length
  match strlen data with
  | none => none
  | some n =>
    match pbuffer_assure buffer ((size + n) % SIZE_MOD) with
    | none => none
    | some b =>
      match strncpy b.start (b.data + size) data n with
      | none => none
      | some start => some { b with start := start, length := (size + n) % SIZE_MOD }

/-- Function `pbuffer_copy`; the memory readable at `src->data` is the rest of the block
of `src`. -/
def pbuffer_copy (dst src : pbuffer) (len : Nat) : Option pbuffer :=
  pbuffer_add dst (src.start.drop src.data) len

/-- Inline function `pbuffer_start` of `pbuffer.h`. -/
def pbuffer_start (b : pbuffer) : pbuffer := { b with data := 0 }

/-- Inline function `pbuffer_clear` of `pbuffer.h`. -/
def pbuffer_clear (b : pbuffer) : pbuffer :=
  let b := pbuffer_start b
  { b with length := 0 }

/-- The state `pbuffer_init` returns. -/
def initial_buffer : pbuffer :=
  { length := 0, allocated := 120, start := List.replicate 120 0, data := 0 }

/-- The capacity `pbuffer_grow` asks `realloc` for. -/
def grow_newsize (allocated : Nat) : Nat := ((allocated * 2) % SIZE_MOD) ||| PBUFFER_MIN

/-- The state after a reallocation to capacity `n`: the old block followed by zero bytes. -/
def grown (b : pbuffer) (n : Nat) : pbuffer :=
  { b with start := b.start ++ List.replicate (n - b.allocated) 0, allocated := n }

/-- Buffer `b'` is `b` with its block extended by zero bytes: same cursor, same length,
the old block unchanged. -/
def pbuffer_ext (b b' : pbuffer) : Prop :=
  ∃ k, b' = { b with start := b.start ++ List.replicate k 0, allocated := b.allocated + k }

/-- What a reallocation leaves in place: the cursor, the length and every byte of the
old block; the capacity does not decrease and the added bytes are zero. -/
def pbuffer_preserved (b b' : pbuffer) : Prop :=
  b.allocated ≤ b'.allocated ∧ b'.data = b.data ∧ b'.length = b.length ∧
    b'.start.take b.allocated = b.start ∧
    b'.start.drop b.allocated = List.replicate (b'.allocated - b.allocated) 0

/-- A small buffer with one consumed byte and three valid bytes, used as a test input. -/
def sample_buffer : pbuffer :=
  { length := 3, allocated := 8, start := [9, 1, 2, 3, 0, 0, 0, 0], data := 1 }

/-- The heap block really has the size recorded in `allocated`, a `size_t`. -/
def pbuffer_wf (b : pbuffer) : Prop := b.start.length = b.allocated ∧ b.allocated < SIZE_MOD

/-- Invariant of the data window: `dataOffset + length ≤ allocated`. -/
def pbuffer_inv (b : pbuffer) : Prop := b.data + b.length ≤ b.allocated

instance (b : pbuffer) : Decidable (pbuffer_wf b) := by unfold pbuffer_wf; infer_instance
instance (b : pbuffer) : Decidable (pbuffer_inv b) := by unfold pbuffer_inv; infer_instance


/-! ## Arithmetic helpers -/

theorem left_le_lor (a b : Nat) : a ≤ a ||| b :=
  Nat.le_of_testBit (by intro i h; simp [h])

theorem right_le_lor (a b : Nat) : b ≤ a ||| b :=
  Nat.le_of_testBit (by intro i h; simp [h])

theorem lor_min_lt (a k : Nat) (hk : 7 ≤ k) (h : a < 2 ^ k) : a ||| PBUFFER_MIN < 2 ^ k := by
  apply Nat.or_lt_two_pow h
  have : 2 ^ 7 ≤ 2 ^ k := Nat.pow_le_pow_right (by decide) hk
  have h120 : PBUFFER_MIN < 2 ^ 7 := by decide
  omega

theorem to_size_of_nat (n : Nat) (h : n < SIZE_MOD) : to_size (n : Int) = n := by
  unfold to_size SIZE_MOD at *
  omega

theorem to_size_sub (a b : Nat) (hab : b ≤ a) (h : a < SIZE_MOD) :
    to_size ((a : Int) - (b : Int)) = a - b := by
  unfold to_size SIZE_MOD at *
  omega

theorem to_size_sub_neg (a b : Nat) (hab : a < b) (h : b < SIZE_MOD) :
    to_size ((a : Int) - (b : Int)) = SIZE_MOD + a - b := by
  unfold to_size SIZE_MOD at *
  omega

theorem grow_newsize_lt (a : Nat) : grow_newsize a < SIZE_MOD := by
  unfold grow_newsize SIZE_MOD
  apply lor_min_lt _ 64 (by decide)
  exact Nat.mod_lt _ (by decide)


/-! ## Growth -/

theorem realloc_memset (block : List Nat) (a n : Nat) (hlen : block.length = a) (han : a ≤ n)
    (hn : n < SIZE_MOD) :
    memset (realloc block n) a 0 (to_size ((n : Int) - (a : Int))) =
      some (block ++ List.replicate (n - a) 0) := by
  rw [to_size_sub n a han hn]
  unfold memset realloc
  have h1 : List.take n block = block := List.take_of_length_le (by omega)
  rw [h1, hlen]
  have h2 : a + (n - a) ≤ (block ++ List.replicate (n - a) UNINIT).length := by simp; omega
  rw [if_pos h2]
  have h3 : List.take a (block ++ List.replicate (n - a) UNINIT) = block := by
    rw [List.take_append_of_le_length (by omega)]
    exact List.take_of_length_le (by omega)
  have h4 : List.drop (a + (n - a)) (block ++ List.replicate (n - a) UNINIT) = [] := by
    apply List.drop_of_length_le
    simp; omega
  rw [h3, h4]
  simp

theorem realloc_memset_none (block : List Nat) (a n : Nat) (hlen : block.length = a) (han : n < a)
    (ha : a < SIZE_MOD) :
    memset (realloc block n) a 0 (to_size ((n : Int) - (a : Int))) = none := by
  rw [to_size_sub_neg n a han ha]
  unfold memset realloc
  have h2 : ¬ (a + (SIZE_MOD + n - a) ≤
      (List.take n block ++ List.replicate (n - block.length) UNINIT).length) := by
    simp; omega
  rw [if_neg h2]

theorem pbuffer_grow_eq (b : pbuffer) (size : Nat) (hwf : pbuffer_wf b) :
    pbuffer_grow b size =
      if size < to_size (pbuffer_unused b) then some (b, b.allocated)
      else if b.allocated ≤ grow_newsize b.allocated then
        some (grown b (grow_newsize b.allocated), grow_newsize b.allocated)
      else none := by
  unfold pbuffer_grow
  split
  · rfl
  · have hfold : ((b.allocated * 2) % SIZE_MOD) ||| PBUFFER_MIN = grow_newsize b.allocated := rfl
    simp only [hfold]
    split_ifs with h
    · rw [realloc_memset b.start _ _ hwf.1 h (grow_newsize_lt _)]
      rfl
    · rw [realloc_memset_none b.start _ _ hwf.1 (by omega) hwf.2]

theorem pbuffer_ext_refl (b : pbuffer) : pbuffer_ext b b :=
  ⟨0, by simp⟩

theorem pbuffer_ext_grown (b : pbuffer) (n : Nat) (h : b.allocated ≤ n) :
    pbuffer_ext b (grown b n) :=
  ⟨n - b.allocated, by simp [grown]; omega⟩

theorem pbuffer_ext_trans {a b c : pbuffer} (h1 : pbuffer_ext a b) (h2 : pbuffer_ext b c) :
    pbuffer_ext a c := by
  obtain ⟨k1, rfl⟩ := h1
  obtain ⟨k2, rfl⟩ := h2
  refine ⟨k1 + k2, ?_⟩
  simp only [List.replicate_add, List.append_assoc, Nat.add_assoc]

theorem pbuffer_grow_some {b b' : pbuffer} {size r : Nat} (hwf : pbuffer_wf b)
    (h : pbuffer_grow b size = some (b', r)) :
    pbuffer_ext b b' ∧ pbuffer_wf b' ∧ r = b'.allocated ∧
      (¬ size < to_size (pbuffer_unused b) → b'.allocated = grow_newsize b.allocated) := by
  rw [pbuffer_grow_eq b size hwf] at h
  split_ifs at h with h1 h2
  · obtain ⟨rfl, rfl⟩ := Prod.mk.inj (Option.some.inj h)
    exact ⟨pbuffer_ext_refl _, hwf, rfl, fun hn => absurd h1 hn⟩
  · obtain ⟨rfl, rfl⟩ := Prod.mk.inj (Option.some.inj h)
    refine ⟨pbuffer_ext_grown b _ h2, ⟨?_, grow_newsize_lt _⟩, rfl, fun _ => rfl⟩
    have := hwf.1
    simp [grown]
    omega

theorem pbuffer_grow_isSome (b : pbuffer) (size : Nat) (hwf : pbuffer_wf b)
    (hA : b.allocated < 2 ^ 63) : ∃ p, pbuffer_grow b size = some p := by
  rw [pbuffer_grow_eq b size hwf]
  have hle : b.allocated ≤ grow_newsize b.allocated := by
    have h1 := left_le_lor ((b.allocated * 2) % SIZE_MOD) PBUFFER_MIN
    unfold grow_newsize
    unfold SIZE_MOD at *
    omega
  split_ifs
  · exact ⟨_, rfl⟩
  · exact ⟨_, rfl⟩

theorem grow_newsize_bound (a k : Nat) (hk : 7 ≤ k) (hk2 : k < 64) (h : a < 2 ^ k) :
    grow_newsize a < 2 ^ (k + 1) := by
  unfold grow_newsize
  apply lor_min_lt _ _ (by omega)
  have : a * 2 % SIZE_MOD ≤ a * 2 := Nat.mod_le _ _
  have : 2 ^ (k + 1) = 2 ^ k * 2 := pow_succ 2 k
  omega

theorem grow_newsize_ge (a : Nat) (h : a < 2 ^ 63) :
    2 * a ≤ grow_newsize a ∧ PBUFFER_MIN ≤ grow_newsize a := by
  have h1 := left_le_lor ((a * 2) % SIZE_MOD) PBUFFER_MIN
  have h2 := right_le_lor ((a * 2) % SIZE_MOD) PBUFFER_MIN
  unfold grow_newsize
  unfold SIZE_MOD at *
  omega

theorem pbuffer_grow_bound {b b' : pbuffer} {size r k : Nat} (hwf : pbuffer_wf b)
    (hk : 7 ≤ k) (hk2 : k < 64) (hA : b.allocated < 2 ^ k)
    (h : pbuffer_grow b size = some (b', r)) : b'.allocated < 2 ^ (k + 1) := by
  rw [pbuffer_grow_eq b size hwf] at h
  have : 2 ^ (k + 1) = 2 ^ k * 2 := pow_succ 2 k
  split_ifs at h with h1 h2
  · obtain ⟨rfl, rfl⟩ := Prod.mk.inj (Option.some.inj h)
    omega
  · obtain ⟨rfl, rfl⟩ := Prod.mk.inj (Option.some.inj h)
    exact grow_newsize_bound _ k hk hk2 hA

/-! ## Capacity assurance -/

theorem pbuffer_assure_eq (b : pbuffer) (size : Nat) :
    pbuffer_assure b size =
      if to_size (pbuffer_unused b) < size then
        (pbuffer_grow b size).bind (fun p =>
          if to_size (to_int p.2) < size then
            (pbuffer_grow p.1 (((size * 2) % SIZE_MOD) ||| PBUFFER_MIN)).map Prod.fst
          else some p.1)
      else if 0 < size then
        (pbuffer_grow b (((size * 2) % SIZE_MOD) ||| PBUFFER_MIN)).map Prod.fst
      else some b := by
  unfold pbuffer_assure
  by_cases h1 : to_size (pbuffer_unused b) < size
  · simp only [h1, if_true]
    cases hg : pbuffer_grow b size with
    | none => rfl
    | some p =>
      obtain ⟨b1, r⟩ := p
      simp only [Option.some_bind]
      by_cases h2 : to_size (to_int r) < size
      · simp only [h2, if_true]
        cases pbuffer_grow b1 (((size * 2) % SIZE_MOD) ||| PBUFFER_MIN) <;> rfl
      · simp only [h2, if_false]
  · simp only [h1, if_false]
    have h0 : to_size 0 = 0 := by decide
    simp only [h0]
    by_cases h2 : 0 < size
    · simp only [h2, if_true]
      cases pbuffer_grow b (((size * 2) % SIZE_MOD) ||| PBUFFER_MIN) <;> rfl
    · simp only [h2, if_false]

theorem pbuffer_assure_some {b b' : pbuffer} {size : Nat} (hwf : pbuffer_wf b)
    (h : pbuffer_assure b size = some b') : pbuffer_ext b b' ∧ pbuffer_wf b' := by
  rw [pbuffer_assure_eq] at h
  split_ifs at h with h1 h2
  · cases hg : pbuffer_grow b size with
    | none => rw [hg] at h; cases h
    | some p =>
      obtain ⟨b1, r⟩ := p
      rw [hg] at h
      simp only [Option.some_bind] at h
      obtain ⟨e1, w1, -, -⟩ := pbuffer_grow_some hwf hg
      split_ifs at h with h3
      · cases hg2 : pbuffer_grow b1 (((size * 2) % SIZE_MOD) ||| PBUFFER_MIN) with
        | none => rw [hg2] at h; cases h
        | some q =>
          obtain ⟨b2, r2⟩ := q
          rw [hg2] at h
          cases h
          obtain ⟨e2, w2, -, -⟩ := pbuffer_grow_some w1 hg2
          exact ⟨pbuffer_ext_trans e1 e2, w2⟩
      · cases h
        exact ⟨e1, w1⟩
  · cases hg2 : pbuffer_grow b (((size * 2) % SIZE_MOD) ||| PBUFFER_MIN) with
    | none => rw [hg2] at h; cases h
    | some q =>
      obtain ⟨b2, r2⟩ := q
      rw [hg2] at h
      cases h
      obtain ⟨e2, w2, -, -⟩ := pbuffer_grow_some hwf hg2
      exact ⟨e2, w2⟩
  · cases h
    exact ⟨pbuffer_ext_refl _, hwf⟩

theorem pbuffer_assure_isSome (b : pbuffer) (size k : Nat) (hwf : pbuffer_wf b)
    (hk : 7 ≤ k) (hk2 : k + 2 ≤ 63) (hA : b.allocated < 2 ^ k) :
    ∃ b', pbuffer_assure b size = some b' ∧ b'.allocated < 2 ^ (k + 2) := by
  have hp1 : 2 ^ (k + 1) = 2 ^ k * 2 := pow_succ 2 k
  have hp2 : 2 ^ (k + 2) = 2 ^ (k + 1) * 2 := pow_succ 2 (k + 1)
  have hp3 : (2 : Nat) ^ (k + 2) ≤ 2 ^ 63 := Nat.pow_le_pow_right (by decide) hk2
  rw [pbuffer_assure_eq]
  split_ifs with h1 h2
  · obtain ⟨⟨b1, r⟩, hg⟩ := pbuffer_grow_isSome b size hwf (by omega)
    obtain ⟨e1, w1, -, -⟩ := pbuffer_grow_some hwf hg
    have hb1 := pbuffer_grow_bound hwf hk (by omega) hA hg
    rw [hg]
    simp only [Option.some_bind]
    split_ifs with h3
    · obtain ⟨⟨b2, r2⟩, hg2⟩ := pbuffer_grow_isSome b1
        (((size * 2) % SIZE_MOD) ||| PBUFFER_MIN) w1 (by omega)
      have hb2 := pbuffer_grow_bound w1 (by omega) (by omega) hb1 hg2
      rw [hg2]
      exact ⟨b2, rfl, hb2⟩
    · exact ⟨b1, rfl, by omega⟩
  · obtain ⟨⟨b2, r2⟩, hg2⟩ := pbuffer_grow_isSome b
      (((size * 2) % SIZE_MOD) ||| PBUFFER_MIN) hwf (by omega)
    have hb2 := pbuffer_grow_bound hwf hk (by omega) hA hg2
    rw [hg2]
    exact ⟨b2, rfl, by omega⟩
  · exact ⟨b, rfl, by omega⟩

/-- When the first test of `pbuffer_assure` fires, the block is really reallocated. -/
theorem pbuffer_assure_grows {b b' : pbuffer} {size : Nat} (hwf : pbuffer_wf b)
    (hA : b.allocated < 2 ^ 63) (h1 : to_size (pbuffer_unused b) < size)
    (h : pbuffer_assure b size = some b') :
    2 * b.allocated ≤ b'.allocated ∧ PBUFFER_MIN ≤ b'.allocated := by
  rw [pbuffer_assure_eq, if_pos h1] at h
  cases hg : pbuffer_grow b size with
  | none => rw [hg] at h; cases h
  | some p =>
    obtain ⟨b1, r⟩ := p
    rw [hg] at h
    simp only [Option.some_bind] at h
    obtain ⟨e1, w1, -, hN⟩ := pbuffer_grow_some hwf hg
    have hN1 := hN (by omega)
    have hge := grow_newsize_ge b.allocated hA
    have hext : pbuffer_ext b1 b' := by
      split_ifs at h with h3
      · cases hg2 : pbuffer_grow b1 (((size * 2) % SIZE_MOD) ||| PBUFFER_MIN) with
        | none => rw [hg2] at h; cases h
        | some q =>
          obtain ⟨b2, r2⟩ := q
          rw [hg2] at h
          cases h
          exact (pbuffer_grow_some w1 hg2).1
      · cases h
        exact pbuffer_ext_refl _
    obtain ⟨k, rfl⟩ := hext
    simp only
    omega

/-! ## What an extension of the block preserves -/

theorem pbuffer_ext_fields {b b' : pbuffer} (h : pbuffer_ext b b') :
    b'.length = b.length ∧ b'.data = b.data ∧ b.allocated ≤ b'.allocated := by
  obtain ⟨k, rfl⟩ := h
  exact ⟨rfl, rfl, Nat.le_add_right _ _⟩

theorem pbuffer_ext_block {b b' : pbuffer} (h : pbuffer_ext b b') :
    b'.start = b.start ++ List.replicate (b'.allocated - b.allocated) 0 := by
  obtain ⟨k, rfl⟩ := h
  simp

theorem pbuffer_ext_take {b b' : pbuffer} (hwf : pbuffer_wf b) (h : pbuffer_ext b b') :
    b'.start.take b.allocated = b.start := by
  rw [pbuffer_ext_block h, ← hwf.1]
  exact List.take_left' rfl

theorem pbuffer_ext_drop {b b' : pbuffer} (hwf : pbuffer_wf b) (h : pbuffer_ext b b') :
    b'.start.drop b.allocated = List.replicate (b'.allocated - b.allocated) 0 := by
  rw [pbuffer_ext_block h, ← hwf.1]
  exact List.drop_left' rfl

theorem pbuffer_ext_window {b b' : pbuffer} (hwf : pbuffer_wf b) (h : pbuffer_ext b b')
    (d l : Nat) (hdl : d + l ≤ b.allocated) :
    (b'.start.drop d).take l = (b.start.drop d).take l := by
  rw [pbuffer_ext_block h]
  have h1 := hwf.1
  rw [List.drop_append_of_le_length (by omega)]
  rw [List.take_append_of_le_length (by rw [List.length_drop]; omega)]

theorem pbuffer_ext_content {b b' : pbuffer} (hwf : pbuffer_wf b) (hinv : pbuffer_inv b)
    (h : pbuffer_ext b b') : pbuffer_content b' = pbuffer_content b := by
  obtain ⟨hl, hd, -⟩ := pbuffer_ext_fields h
  unfold pbuffer_content
  rw [hl, hd]
  exact pbuffer_ext_window hwf h _ _ hinv

/-! ## Cursor operations -/

theorem pbuffer_safe_shift_some {b b' : pbuffer} {n : Nat} (hwf : pbuffer_wf b)
    (hinv : pbuffer_inv b) (hn : n ≤ b.length) (h : pbuffer_safe_shift b n = some b') :
    b'.length = b.length - n ∧ b'.data = b.data + n ∧
      pbuffer_content b' = (pbuffer_content b).drop n ∧
      b.allocated ≤ b'.allocated ∧ b'.start.take b.allocated = b.start ∧
      pbuffer_wf b' ∧ pbuffer_inv b' := by
  unfold pbuffer_safe_shift at h
  split_ifs at h with h0
  · cases h
    have : n = 0 := by omega
    subst this
    exact ⟨rfl, rfl, rfl, le_refl _, by rw [← hwf.1]; exact List.take_length _, hwf, hinv⟩
  · cases ha : pbuffer_assure b n with
    | none => rw [ha] at h; cases h
    | some e =>
      rw [ha] at h
      obtain ⟨hext, hwe⟩ := pbuffer_assure_some hwf ha
      obtain ⟨hl, hd, hle⟩ := pbuffer_ext_fields hext
      have hb2 := hwf.2
      have hsz : to_size ((e.length : Int) - (n : Int)) = b.length - n := by
        rw [hl]
        unfold pbuffer_inv at hinv
        exact to_size_sub _ _ hn (by omega)
      have htake : e.start.take b.allocated = b.start := pbuffer_ext_take hwf hext
      cases h
      refine ⟨hsz, by simp [hd], ?_, hle, htake, ?_, ?_⟩
      · unfold pbuffer_content
        simp only [hsz, hd]
        unfold pbuffer_inv at hinv
        rw [pbuffer_ext_window hwf hext (b.data + n) (b.length - n) (by omega),
          List.drop_take, List.drop_drop]
      · exact hwe
      · unfold pbuffer_inv at *
        simp only [hsz, hd]
        omega

theorem pbuffer_safe_shift_isSome (b : pbuffer) (n k : Nat) (hwf : pbuffer_wf b)
    (hk : 7 ≤ k) (hk2 : k + 2 ≤ 63) (hA : b.allocated < 2 ^ k) :
    ∃ b', pbuffer_safe_shift b n = some b' ∧ b'.allocated < 2 ^ (k + 2) := by
  unfold pbuffer_safe_shift
  split_ifs with h0
  · refine ⟨b, rfl, ?_⟩
    have : 2 ^ k ≤ 2 ^ (k + 2) := Nat.pow_le_pow_right (by decide) (by omega)
    omega
  · obtain ⟨e, he, hb⟩ := pbuffer_assure_isSome b n k hwf hk hk2 hA
    rw [he]
    exact ⟨_, rfl, hb⟩

theorem pbuffer_consume_spec (b : pbuffer) (hwf : pbuffer_wf b) (hinv : pbuffer_inv b) :
    ∃ b', pbuffer_consume b = some b' ∧ b'.length = b.length ∧ b'.allocated = b.allocated ∧
      pbuffer_content b' = pbuffer_content b ∧
      (b.length < b.data → b'.data = 0) ∧ (¬ b.length < b.data → b' = b) ∧
      pbuffer_wf b' ∧ pbuffer_inv b' := by
  have h1 := hwf.1
  have h2 := hwf.2
  unfold pbuffer_inv at hinv
  have hoff : to_size (pbuffer_offset b : Int) = b.data :=
    to_size_of_nat _ (by unfold pbuffer_offset; omega)
  unfold pbuffer_consume
  rw [hoff]
  split_ifs with hc
  · unfold memmove
    rw [if_pos (by omega)]
    refine ⟨_, rfl, rfl, rfl, ?_, fun _ => rfl, fun hn => absurd hc hn, ?_, ?_⟩
    · unfold pbuffer_content
      simp only [List.take_zero, List.nil_append, List.drop_zero, Nat.zero_add]
      rw [List.take_append_of_le_length (by simp; omega)]
      rw [List.take_take]
      simp
    · refine ⟨?_, h2⟩
      simp
      omega
    · unfold pbuffer_inv
      simp
      omega
  · exact ⟨b, rfl, rfl, rfl, rfl, fun h => absurd h hc, fun _ => rfl, hwf, hinv⟩

theorem pbuffer_shift_some {b b' : pbuffer} {n : Nat} (hwf : pbuffer_wf b)
    (hinv : pbuffer_inv b) (hn : n ≤ b.length) (h : pbuffer_shift b n = some b') :
    b'.length = b.length - n ∧
      b'.data = (if b.length - n < b.data + n then 0 else b.data + n) ∧
      pbuffer_content b' = (pbuffer_content b).drop n ∧
      b.allocated ≤ b'.allocated ∧ pbuffer_wf b' ∧ pbuffer_inv b' := by
  unfold pbuffer_shift at h
  cases hs : pbuffer_safe_shift b n with
  | none => rw [hs] at h; cases h
  | some s =>
    rw [hs] at h
    obtain ⟨sl, sd, sc, sa, -, swf, sinv⟩ := pbuffer_safe_shift_some hwf hinv hn hs
    obtain ⟨c, hc, cl, ca, cc, cd0, cd1, cwf, cinv⟩ := pbuffer_consume_spec s swf sinv
    change pbuffer_consume s = some b' at h
    rw [hc] at h
    cases h
    refine ⟨by rw [cl, sl], ?_, by rw [cc, sc], by rw [ca]; exact sa, cwf, cinv⟩
    rw [sl, sd] at cd0 cd1
    split_ifs with hlt
    · exact cd0 hlt
    · rw [cd1 hlt, sd]

theorem pbuffer_shift_isSome (b : pbuffer) (n k : Nat) (hwf : pbuffer_wf b)
    (hinv : pbuffer_inv b) (hn : n ≤ b.length)
    (hk : 7 ≤ k) (hk2 : k + 2 ≤ 63) (hA : b.allocated < 2 ^ k) :
    ∃ b', pbuffer_shift b n = some b' ∧ b'.allocated < 2 ^ (k + 2) := by
  obtain ⟨s, hs, hb⟩ := pbuffer_safe_shift_isSome b n k hwf hk hk2 hA
  obtain ⟨-, -, -, -, -, swf, sinv⟩ := pbuffer_safe_shift_some hwf hinv hn hs
  obtain ⟨c, hc, -, ca, -⟩ := pbuffer_consume_spec s swf sinv
  unfold pbuffer_shift
  rw [hs]
  exact ⟨c, hc, by rw [ca]; exact hb⟩

/-! ## Extraction -/

theorem memcpy_dest (dest src : List Nat) (len : Nat) (h1 : len ≤ dest.length)
    (h2 : len ≤ src.length) :
    memcpy dest 0 src len = some (src.take len ++ dest.drop len) := by
  unfold memcpy
  rw [if_pos ⟨by omega, h2⟩]
  simp

theorem memcpy_some_bounds {block src out : List Nat} {off n : Nat}
    (h : memcpy block off src n = some out) :
    off + n ≤ block.length ∧ n ≤ src.length ∧
      out = block.take off ++ src.take n ++ block.drop (off + n) := by
  unfold memcpy at h
  split_ifs at h with hc
  cases h
  exact ⟨hc.1, hc.2, rfl⟩

theorem pbuffer_content_take (b : pbuffer) (len : Nat) (h : len ≤ b.length) :
    (b.start.drop b.data).take len = (pbuffer_content b).take len := by
  unfold pbuffer_content
  rw [List.take_take, Nat.min_eq_left h]

theorem pbuffer_safe_extract_some {b b' : pbuffer} {dest dest' : List Nat} {len : Nat}
    (hn : len ≤ b.length)
    (h : pbuffer_safe_extract b dest len = some (b', dest')) :
    dest' = (pbuffer_content b).take len ++ dest.drop len ∧
      pbuffer_safe_shift b len = some b' := by
  unfold pbuffer_safe_extract at h
  rw [if_neg (by omega)] at h
  cases hm : memcpy dest 0 (b.start.drop b.data) len with
  | none => rw [hm] at h; cases h
  | some d =>
    rw [hm] at h
    obtain ⟨-, -, hd⟩ := memcpy_some_bounds hm
    cases hs : pbuffer_safe_shift b len with
    | none => rw [hs] at h; cases h
    | some s =>
      rw [hs] at h
      cases h
      refine ⟨?_, rfl⟩
      rw [hd, pbuffer_content_take b len hn]
      simp

theorem pbuffer_extract_some {b b' : pbuffer} {dest dest' : List Nat} {len : Nat}
    (hn : len ≤ b.length)
    (h : pbuffer_extract b dest len = some (b', dest')) :
    dest' = (pbuffer_content b).take len ++ dest.drop len ∧
      pbuffer_shift b len = some b' := by
  unfold pbuffer_extract at h
  rw [if_neg (by omega)] at h
  cases hm : memcpy dest 0 (b.start.drop b.data) len with
  | none => rw [hm] at h; cases h
  | some d =>
    rw [hm] at h
    obtain ⟨-, -, hd⟩ := memcpy_some_bounds hm
    cases hs : pbuffer_shift b len with
    | none => rw [hs] at h; cases h
    | some s =>
      rw [hs] at h
      cases h
      refine ⟨?_, rfl⟩
      rw [hd, pbuffer_content_take b len hn]
      simp

theorem pbuffer_safe_extract_isSome (b : pbuffer) (dest : List Nat) (len k : Nat)
    (hwf : pbuffer_wf b) (hinv : pbuffer_inv b) (hn : len ≤ b.length)
    (hdest : len ≤ dest.length) (hk : 7 ≤ k) (hk2 : k + 2 ≤ 63) (hA : b.allocated < 2 ^ k) :
    ∃ r, pbuffer_safe_extract b dest len = some r := by
  obtain ⟨s, hs, -⟩ := pbuffer_safe_shift_isSome b len k hwf hk hk2 hA
  unfold pbuffer_safe_extract
  rw [if_neg (by omega)]
  have h1 := hwf.1
  unfold pbuffer_inv at hinv
  rw [memcpy_dest dest _ len hdest (by rw [List.length_drop]; omega), hs]
  exact ⟨_, rfl⟩

/-! ## Appending -/

theorem pbuffer_add_some {b b' : pbuffer} {data : List Nat} {size : Nat}
    (hwf : pbuffer_wf b) (hinv : pbuffer_inv b)
    (h : pbuffer_add b data size = some b') :
    b'.length = b.length + size ∧ b'.data = b.data ∧
      pbuffer_content b' = pbuffer_content b ++ data.take size ∧
      size ≤ data.length ∧ b.allocated ≤ b'.allocated ∧
      pbuffer_wf b' ∧ pbuffer_inv b' := by
  unfold pbuffer_add at h
  cases ha : pbuffer_assure b ((size + b.length) % SIZE_MOD) with
  | none => rw [ha] at h; cases h
  | some e =>
    rw [ha] at h
    simp only at h
    obtain ⟨hext, hwe⟩ := pbuffer_assure_some hwf ha
    obtain ⟨hl, hd, hle⟩ := pbuffer_ext_fields hext
    cases hm : memcpy e.start (pbuffer_end e) data size with
    | none => rw [hm] at h; cases h
    | some m =>
      rw [hm] at h
      obtain ⟨hb1, hb2, hmeq⟩ := memcpy_some_bounds hm
      unfold pbuffer_end at hb1 hmeq
      rw [hl, hd] at hb1 hmeq
      have he1 := hwe.1
      have he2 := hwe.2
      unfold pbuffer_inv at hinv
      have hlen : (e.length + size) % SIZE_MOD = b.length + size := by
        rw [hl]
        exact Nat.mod_eq_of_lt (by omega)
      have hsz : (data.take size).length = size := by
        rw [List.length_take]; omega
      have hwin := pbuffer_ext_window hwf hext b.data b.length hinv
      cases h
      refine ⟨hlen, hd, ?_, hb2, hle, ?_, ?_⟩
      · unfold pbuffer_content
        simp only [hlen, hd, hmeq]
        rw [List.append_assoc, List.drop_append_of_le_length (by rw [List.length_take]; omega)]
        rw [List.drop_take, Nat.add_sub_cancel_left, hwin]
        rw [← List.append_assoc]
        apply List.take_left'
        rw [List.length_append, hsz, List.length_take, List.length_drop]
        have := hwf.1
        omega
      · refine ⟨?_, he2⟩
        simp only [hmeq]
        simp only [List.length_append, List.length_take, List.length_drop]
        omega
      · unfold pbuffer_inv
        simp only [hlen, hd]
        omega

theorem pbuffer_add_isSome (b : pbuffer) (data : List Nat) (size k : Nat)
    (hwf : pbuffer_wf b) (hinv : pbuffer_inv b) (hdata : size ≤ data.length)
    (hroom : size + (b.data + b.length) ≤ 2 * b.allocated ∨
      size + (b.data + b.length) ≤ PBUFFER_MIN)
    (hk : 7 ≤ k) (hk2 : k + 2 ≤ 63) (hA : b.allocated < 2 ^ k) :
    ∃ b', pbuffer_add b data size = some b' ∧ b'.allocated < 2 ^ (k + 2) := by
  have hp3 : (2 : Nat) ^ k ≤ 2 ^ 61 := Nat.pow_le_pow_right (by decide) (by omega)
  have hw1 := hwf.1
  unfold pbuffer_inv at hinv
  have hmin : PBUFFER_MIN = 120 := rfl
  have hreq : (size + b.length) % SIZE_MOD = size + b.length := by
    apply Nat.mod_eq_of_lt
    unfold SIZE_MOD
    omega
  obtain ⟨e, ha, hb⟩ := pbuffer_assure_isSome b ((size + b.length) % SIZE_MOD) k hwf hk hk2 hA
  obtain ⟨hext, hwe⟩ := pbuffer_assure_some hwf ha
  obtain ⟨hl, hd, hle⟩ := pbuffer_ext_fields hext
  have hfit : b.data + b.length + size ≤ e.allocated := by
    by_cases hc : to_size (pbuffer_unused b) < (size + b.length) % SIZE_MOD
    · have := pbuffer_assure_grows hwf (by omega) hc ha
      omega
    · have hu : to_size (pbuffer_unused b) = b.allocated - (b.data + b.length) := by
        unfold pbuffer_unused pbuffer_end
        have := to_size_sub b.allocated (b.data + b.length) hinv hwf.2
        push_cast at this ⊢
        exact this
      rw [hu, hreq] at hc
      omega
  unfold pbuffer_add
  rw [ha]
  simp only
  unfold memcpy pbuffer_end
  rw [if_pos ⟨by rw [hwe.1, hl, hd]; exact hfit, hdata⟩]
  exact ⟨_, rfl, hb⟩

/-! ## Initial state -/

theorem pbuffer_init_eq :
    pbuffer_init =
      some { length := 0, allocated := 120, start := List.replicate 120 0, data := 0 } := by
  unfold pbuffer_init memset malloc PBUFFER_MIN
  simp

set_option maxRecDepth 100000

/-! ## Round trip through the buffer, where the append stays inside the block -/

theorem pbuffer_roundtrip_defined (B dest d : List Nat) (b0 b1 b2 : pbuffer)
    (hdest : dest.length = B.length) (h0 : pbuffer_init = some b0)
    (h1 : pbuffer_add b0 B B.length = some b1)
    (h2 : pbuffer_extract b1 dest B.length = some (b2, d)) :
    d = B ∧ b2.length = 0 := by
  rw [pbuffer_init_eq] at h0
  cases h0
  have hwf0 : pbuffer_wf ⟨0, 120, List.replicate 120 0, 0⟩ := by decide
  have hinv0 : pbuffer_inv ⟨0, 120, List.replicate 120 0, 0⟩ := by decide
  obtain ⟨a1, -, a3, -, -, hwf1, hinv1⟩ := pbuffer_add_some hwf0 hinv0 h1
  have hc1 : pbuffer_content b1 = B := by
    rw [a3, List.take_length]
    rfl
  have hl1 : b1.length = B.length := by rw [a1]; simp
  obtain ⟨e1, e2⟩ := pbuffer_extract_some (by omega) h2
  obtain ⟨s1, -⟩ := pbuffer_shift_some hwf1 hinv1 (by omega) e2
  refine ⟨?_, by omega⟩
  rw [e1, hc1, List.take_length, ← hdest, List.drop_length]
  simp

theorem pbuffer_roundtrip_small (B dest : List Nat) (hdest : dest.length = B.length)
    (hB : B.length ≤ 240) :
    ∃ b0 b1 b2, pbuffer_init = some b0 ∧ pbuffer_add b0 B B.length = some b1 ∧
      pbuffer_extract b1 dest B.length = some (b2, B) ∧ b2.length = 0 := by
  have hwf0 : pbuffer_wf ⟨0, 120, List.replicate 120 0, 0⟩ := by decide
  have hinv0 : pbuffer_inv ⟨0, 120, List.replicate 120 0, 0⟩ := by decide
  obtain ⟨b1, hadd, hb1⟩ := pbuffer_add_isSome ⟨0, 120, List.replicate 120 0, 0⟩ B B.length 7
    hwf0 hinv0 (le_refl _) (Or.inl (by simp; omega)) (by decide) (by decide) (by decide)
  obtain ⟨a1, -, -, -, -, hwf1, hinv1⟩ := pbuffer_add_some hwf0 hinv0 hadd
  have hl1 : b1.length = B.length := by rw [a1]; simp
  obtain ⟨b2, hs, -⟩ := pbuffer_shift_isSome b1 B.length 9 hwf1 hinv1 (by omega)
    (by decide) (by decide) hb1
  have hw1 := hwf1.1
  unfold pbuffer_inv at hinv1
  have hex : ∃ r, pbuffer_extract b1 dest B.length = some r := by
    unfold pbuffer_extract
    rw [if_neg (by omega),
      memcpy_dest dest _ B.length (by omega) (by rw [List.length_drop]; omega), hs]
    exact ⟨_, rfl⟩
  obtain ⟨⟨b2', d⟩, hex⟩ := hex
  obtain ⟨hd, hl⟩ := pbuffer_roundtrip_defined B dest d _ b1 b2' hdest pbuffer_init_eq hadd hex
  rw [hd] at hex
  exact ⟨_, b1, b2', pbuffer_init_eq, hadd, hex, hl⟩

/-! ## The claims -/

/-- C1: a single `pbuffer_add` of 505 bytes to the freshly initialised buffer is an
append sequence whose copy leaves the block; `pbuffer_assure` stops at a capacity of 504
bytes with the end of the data at offset 0, and the `memcpy` of 505 bytes is out of
bounds. -/
theorem pbuffer_add_overruns_block :
    (pbuffer_init.bind (fun b => pbuffer_assure b 505)).map
        (fun e => (e.allocated, e.start.length, pbuffer_end e)) = some (504, 504, 0) ∧
      pbuffer_init.bind (fun b => pbuffer_add b (List.replicate 505 7) 505) = none := by
  decide

/-- C2: on the freshly initialised buffer, which satisfies the window invariant,
`pbuffer_assure` with a request of 1000 bytes ends with 504 unused bytes, fewer than
requested. -/
theorem pbuffer_assure_undershoots :
    pbuffer_init.map (fun b => decide (pbuffer_inv b)) = some true ∧
      (pbuffer_init.bind (fun b => pbuffer_assure b 1000)).map
        (fun e => (e.allocated, pbuffer_unused e, decide (pbuffer_unused e ≥ 1000))) =
        some (504, 504, false) := by
  decide

/-- C3: for a byte string of 600 bytes the round trip of `pbuffer_add` followed by
`pbuffer_extract` does not return the bytes: the append itself already copies past the
504 bytes that were allocated. -/
theorem pbuffer_roundtrip_600_fails :
    (pbuffer_init.bind (fun b => pbuffer_add b (List.replicate 600 66) 600)).bind
        (fun b => pbuffer_extract b (List.replicate 600 0) 600) = none ∧
      (pbuffer_init.bind (fun b => pbuffer_assure b 600)).map
        (fun e => e.allocated) = some 504 := by
  decide

/-- C4: for a buffer whose window lies inside its block and `n ≤ length`,
`pbuffer_safe_shift` gives `length - n` and `data + n`, the content is the old content
without its first `n` bytes, and no byte of the old block changed; the call is defined
whenever the capacity is below `2 ^ 61`. -/
theorem pbuffer_safe_shift_spec (b : pbuffer) (n : Nat) (hwf : pbuffer_wf b)
    (hinv : pbuffer_inv b) (hn : n ≤ b.length) :
    (∀ b', pbuffer_safe_shift b n = some b' →
        b'.length = b.length - n ∧ b'.data = b.data + n ∧
        pbuffer_content b' = (pbuffer_content b).drop n ∧
        b'.start.take b.allocated = b.start) ∧
      (b.allocated < 2 ^ 61 → ∃ b', pbuffer_safe_shift b n = some b') := by
  constructor
  · intro b' h
    obtain ⟨h1, h2, h3, -, h5, -, -⟩ := pbuffer_safe_shift_some hwf hinv hn h
    exact ⟨h1, h2, h3, h5⟩
  · intro hA
    obtain ⟨b', h, -⟩ := pbuffer_safe_shift_isSome b n 61 hwf (by decide) (by decide) hA
    exact ⟨b', h⟩

/-- Witness for C4 on `sample_buffer` with `n = 2`. -/
theorem pbuffer_safe_shift_spec_witness :
    pbuffer_wf sample_buffer ∧ pbuffer_inv sample_buffer ∧ 2 ≤ sample_buffer.length ∧
      (∀ b', pbuffer_safe_shift sample_buffer 2 = some b' →
          b'.length = sample_buffer.length - 2 ∧ b'.data = sample_buffer.data + 2 ∧
          pbuffer_content b' = (pbuffer_content sample_buffer).drop 2 ∧
          b'.start.take sample_buffer.allocated = sample_buffer.start) ∧
        ∃ b', pbuffer_safe_shift sample_buffer 2 = some b' :=
  ⟨by decide, by decide, by decide,
    (pbuffer_safe_shift_spec sample_buffer 2 (by decide) (by decide) (by decide)).1,
    (pbuffer_safe_shift_spec sample_buffer 2 (by decide) (by decide) (by decide)).2
      (by decide)⟩

/-- C5 as stated fails: on `sample_buffer`, `pbuffer_shift` by 2 leaves one byte behind
three consumed ones, so `pbuffer_consume` compacts and the cursor ends at 0, not at 3. -/
theorem pbuffer_shift_cursor_counterexample :
    ¬ (∀ (b b' : pbuffer) (n : Nat), pbuffer_wf b → pbuffer_inv b → n ≤ b.length →
        pbuffer_shift b n = some b' →
        b'.length = b.length - n ∧ b'.data = b.data + n) := by
  intro h
  have hs : pbuffer_shift sample_buffer 2 =
      some { length := 1, allocated := 120,
             start := 3 :: 1 :: 2 :: 3 :: List.replicate 116 0, data := 0 } := by decide
  have := (h sample_buffer _ 2 (by decide) (by decide) (by decide) hs).2
  revert this
  decide

/-- C5 amended: `pbuffer_shift` gives `length - n`; the cursor is `data + n` unless
fewer bytes remain than were consumed (`length - n < data + n`), in which case the bytes
are moved to the front and the cursor is 0; the call is defined whenever the capacity is
below `2 ^ 61`. -/
theorem pbuffer_shift_spec (b : pbuffer) (n : Nat) (hwf : pbuffer_wf b)
    (hinv : pbuffer_inv b) (hn : n ≤ b.length) :
    (∀ b', pbuffer_shift b n = some b' →
        b'.length = b.length - n ∧
        (¬ b.length - n < b.data + n → b'.data = b.data + n) ∧
        (b.length - n < b.data + n → b'.data = 0)) ∧
      (b.allocated < 2 ^ 61 → ∃ b', pbuffer_shift b n = some b') := by
  constructor
  · intro b' h
    obtain ⟨h1, h2, -⟩ := pbuffer_shift_some hwf hinv hn h
    refine ⟨h1, fun hc => ?_, fun hc => ?_⟩
    · rw [h2, if_neg hc]
    · rw [h2, if_pos hc]
  · intro hA
    obtain ⟨b', h, -⟩ := pbuffer_shift_isSome b n 61 hwf hinv hn (by decide) (by decide) hA
    exact ⟨b', h⟩

/-- Witness for the amended C5 on `sample_buffer` with `n = 1`. -/
theorem pbuffer_shift_spec_witness :
    pbuffer_wf sample_buffer ∧ pbuffer_inv sample_buffer ∧ 1 ≤ sample_buffer.length ∧
      (∀ b', pbuffer_shift sample_buffer 1 = some b' →
          b'.length = sample_buffer.length - 1 ∧
          (¬ sample_buffer.length - 1 < sample_buffer.data + 1 →
            b'.data = sample_buffer.data + 1) ∧
          (sample_buffer.length - 1 < sample_buffer.data + 1 → b'.data = 0)) ∧
        ∃ b', pbuffer_shift sample_buffer 1 = some b' :=
  ⟨by decide, by decide, by decide,
    (pbuffer_shift_spec sample_buffer 1 (by decide) (by decide) (by decide)).1,
    (pbuffer_shift_spec sample_buffer 1 (by decide) (by decide) (by decide)).2 (by decide)⟩

/-- C6: for a buffer whose window lies inside its block, `pbuffer_consume` returns, keeps
`length`, `allocated` and the content; when `length < data` the cursor becomes 0, and
otherwise (equality included) the state is unchanged. -/
theorem pbuffer_consume_frame (b : pbuffer) (hwf : pbuffer_wf b) (hinv : pbuffer_inv b) :
    ∃ b', pbuffer_consume b = some b' ∧ b'.length = b.length ∧
      b'.allocated = b.allocated ∧ pbuffer_content b' = pbuffer_content b ∧
      (b.length < b.data → b'.data = 0) ∧ (b.data ≤ b.length → b' = b) := by
  obtain ⟨b', h, h1, h2, h3, h4, h5, -, -⟩ := pbuffer_consume_spec b hwf hinv
  exact ⟨b', h, h1, h2, h3, h4, fun hle => h5 (by omega)⟩

/-- Witness for C6 on the buffer with cursor 5 and the two valid bytes `7, 8`. -/
theorem pbuffer_consume_frame_witness :
    pbuffer_wf ⟨2, 8, [1, 2, 3, 4, 5, 7, 8, 0], 5⟩ ∧
      pbuffer_inv ⟨2, 8, [1, 2, 3, 4, 5, 7, 8, 0], 5⟩ ∧
      ∃ b', pbuffer_consume ⟨2, 8, [1, 2, 3, 4, 5, 7, 8, 0], 5⟩ = some b' ∧
        b'.length = 2 ∧ b'.allocated = 8 ∧
        pbuffer_content b' = pbuffer_content ⟨2, 8, [1, 2, 3, 4, 5, 7, 8, 0], 5⟩ ∧
        (2 < 5 → b'.data = 0) ∧ (5 ≤ 2 → b' = ⟨2, 8, [1, 2, 3, 4, 5, 7, 8, 0], 5⟩) :=
  ⟨by decide, by decide,
    pbuffer_consume_frame ⟨2, 8, [1, 2, 3, 4, 5, 7, 8, 0], 5⟩ (by decide) (by decide)⟩

/-- C7: for a buffer whose window lies inside its block and a 32-bit value `v`,
`pbuffer_add_uint` adds 4 to `length` and appends to the unchanged old content the four
bytes of `v`, most significant first; `0x01020304` appends `1, 2, 3, 4`; the call is
defined whenever the capacity is below `2 ^ 61`. -/
theorem pbuffer_add_uint_spec (b : pbuffer) (v : Nat) (hwf : pbuffer_wf b)
    (hinv : pbuffer_inv b) (hv : v < 2 ^ 32) :
    (∀ b', pbuffer_add_uint b v = some b' →
        b'.length = b.length + 4 ∧
        (pbuffer_content b').take b.length = pbuffer_content b ∧
        pbuffer_content b' = pbuffer_content b ++
          [v / 2 ^ 24 % 256, v / 2 ^ 16 % 256, v / 2 ^ 8 % 256, v % 256] ∧
        (v = 0x01020304 → pbuffer_content b' = pbuffer_content b ++ [1, 2, 3, 4])) ∧
      (b.allocated < 2 ^ 61 → ∃ b', pbuffer_add_uint b v = some b') := by
  have hmod : v % 2 ^ 32 = v := Nat.mod_eq_of_lt hv
  have hclen : (pbuffer_content b).length = b.length := by
    unfold pbuffer_content
    unfold pbuffer_inv at hinv
    have := hwf.1
    rw [List.length_take, List.length_drop]
    omega
  constructor
  · intro b' h
    unfold pbuffer_add_uint at h
    rw [hmod] at h
    obtain ⟨h1, -, h3, -⟩ := pbuffer_add_some hwf hinv h
    have h4 : pbuffer_content b' = pbuffer_content b ++
        [v / 2 ^ 24 % 256, v / 2 ^ 16 % 256, v / 2 ^ 8 % 256, v % 256] := by
      rw [h3]
      rfl
    refine ⟨h1, ?_, h4, fun hv4 => ?_⟩
    · rw [h4]
      exact List.take_left' hclen
    · rw [h4, hv4]
      rfl
  · intro hA
    unfold pbuffer_add_uint
    unfold pbuffer_inv at hinv
    have hroom : 4 + (b.data + b.length) ≤ 2 * b.allocated ∨
        4 + (b.data + b.length) ≤ PBUFFER_MIN := by
      unfold PBUFFER_MIN
      omega
    obtain ⟨b', h, -⟩ := pbuffer_add_isSome b (htonl (v % 2 ^ 32)) 4 61 hwf hinv
      (by simp [htonl]) hroom (by decide) (by decide) hA
    exact ⟨b', h⟩

/-- Witness for C7 on `sample_buffer` with the value `0x01020304`. -/
theorem pbuffer_add_uint_spec_witness :
    pbuffer_wf sample_buffer ∧ pbuffer_inv sample_buffer ∧ 0x01020304 < 2 ^ 32 ∧
      (∀ b', pbuffer_add_uint sample_buffer 0x01020304 = some b' →
          b'.length = sample_buffer.length + 4 ∧
          (pbuffer_content b').take sample_buffer.length = pbuffer_content sample_buffer ∧
          pbuffer_content b' = pbuffer_content sample_buffer ++
            [0x01020304 / 2 ^ 24 % 256, 0x01020304 / 2 ^ 16 % 256,
              0x01020304 / 2 ^ 8 % 256, 0x01020304 % 256] ∧
          (0x01020304 = 0x01020304 →
            pbuffer_content b' = pbuffer_content sample_buffer ++ [1, 2, 3, 4])) ∧
        ∃ b', pbuffer_add_uint sample_buffer 0x01020304 = some b' :=
  ⟨by decide, by decide, by decide,
    (pbuffer_add_uint_spec sample_buffer 0x01020304 (by decide) (by decide) (by decide)).1,
    (pbuffer_add_uint_spec sample_buffer 0x01020304 (by decide) (by decide) (by decide)).2
      (by decide)⟩

/-- C8: when `len > length`, `pbuffer_extract` and `pbuffer_safe_extract` return with the
buffer and the destination unchanged, for every buffer; when `len ≤ length`, on a buffer
whose window lies inside its block, `pbuffer_safe_extract` puts the first `len` bytes of
the content at the start of the destination, subtracts `len` from `length` and adds it to
the cursor, and it is defined when the destination has room for `len` bytes and the
capacity is below `2 ^ 61`. -/
theorem pbuffer_extract_spec (b : pbuffer) (dest : List Nat) (len : Nat) :
    (b.length < len →
        pbuffer_extract b dest len = some (b, dest) ∧
        pbuffer_safe_extract b dest len = some (b, dest)) ∧
      (pbuffer_wf b → pbuffer_inv b → len ≤ b.length →
        (∀ b' dest', pbuffer_safe_extract b dest len = some (b', dest') →
          dest' = (pbuffer_content b).take len ++ dest.drop len ∧
          b'.length = b.length - len ∧ b'.data = b.data + len) ∧
        (len ≤ dest.length → b.allocated < 2 ^ 61 →
          ∃ r, pbuffer_safe_extract b dest len = some r)) := by
  constructor
  · intro h
    unfold pbuffer_extract pbuffer_safe_extract
    rw [if_pos h, if_pos h]
    exact ⟨rfl, rfl⟩
  · intro hwf hinv hn
    constructor
    · intro b' dest' h
      obtain ⟨h1, h2⟩ := pbuffer_safe_extract_some hn h
      obtain ⟨h3, h4, -⟩ := pbuffer_safe_shift_some hwf hinv hn h2
      exact ⟨h1, h3, h4⟩
    · intro hdest hA
      exact pbuffer_safe_extract_isSome b dest len 61 hwf hinv hn hdest
        (by decide) (by decide) hA

/-- Witness for C8: `sample_buffer` with a request of 5 bytes (more than its 3) and with
a request of 2 bytes into a destination of 4 bytes. -/
theorem pbuffer_extract_spec_witness :
    (pbuffer_extract sample_buffer [5, 5, 5, 5, 5] 5 = some (sample_buffer, [5, 5, 5, 5, 5]) ∧
      pbuffer_safe_extract sample_buffer [5, 5, 5, 5, 5] 5 =
        some (sample_buffer, [5, 5, 5, 5, 5])) ∧
    ((∀ b' dest', pbuffer_safe_extract sample_buffer [5, 5, 5, 5] 2 = some (b', dest') →
        dest' = (pbuffer_content sample_buffer).take 2 ++ [5, 5, 5, 5].drop 2 ∧
        b'.length = sample_buffer.length - 2 ∧ b'.data = sample_buffer.data + 2) ∧
      ∃ r, pbuffer_safe_extract sample_buffer [5, 5, 5, 5] 2 = some r) :=
  ⟨(pbuffer_extract_spec sample_buffer [5, 5, 5, 5, 5] 5).1 (by decide),
    ((pbuffer_extract_spec sample_buffer [5, 5, 5, 5] 2).2
        (by decide) (by decide) (by decide)).1,
    ((pbuffer_extract_spec sample_buffer [5, 5, 5, 5] 2).2
        (by decide) (by decide) (by decide)).2 (by decide) (by decide)⟩

/-- C9: from `pbuffer_init` (capacity 120, empty), `pbuffer_add` of a 200-byte payload
`P` gives capacity at least 200, `length = 200` and content `P`; `pbuffer_safe_extract`
of 50 bytes then puts the first 50 bytes of `P` at the start of the destination and
leaves `length = 150`, cursor 50 and the last 150 bytes of `P` as content. -/
theorem pbuffer_scenario_200_50 (P dest : List Nat) (hP : P.length = 200)
    (hdest : 50 ≤ dest.length) :
    ∃ b0 b1 b2, pbuffer_init = some b0 ∧
      b0.allocated = 120 ∧ b0.length = 0 ∧ b0.data = 0 ∧
      pbuffer_add b0 P 200 = some b1 ∧
      200 ≤ b1.allocated ∧ b1.length = 200 ∧ pbuffer_content b1 = P ∧
      pbuffer_safe_extract b1 dest 50 = some (b2, P.take 50 ++ dest.drop 50) ∧
      b2.length = 150 ∧ b2.data = 50 ∧ pbuffer_content b2 = P.drop 50 := by
  have hwf0 : pbuffer_wf ⟨0, 120, List.replicate 120 0, 0⟩ := by decide
  have hinv0 : pbuffer_inv ⟨0, 120, List.replicate 120 0, 0⟩ := by decide
  obtain ⟨b1, hadd, hb1⟩ := pbuffer_add_isSome ⟨0, 120, List.replicate 120 0, 0⟩ P 200 7
    hwf0 hinv0 (by omega) (Or.inl (by decide)) (by decide) (by decide) (by decide)
  obtain ⟨a1, a2, a3, -, -, hwf1, hinv1⟩ := pbuffer_add_some hwf0 hinv0 hadd
  have hc1 : pbuffer_content b1 = P := by
    rw [a3]
    have : List.take 200 P = P := List.take_of_length_le (by omega)
    rw [this]
    rfl
  have hl1 : b1.length = 200 := by rw [a1]
  have hn : 50 ≤ b1.length := by omega
  obtain ⟨⟨b2, d2⟩, hext⟩ := pbuffer_safe_extract_isSome b1 dest 50 9 hwf1 hinv1 hn hdest
    (by decide) (by decide) hb1
  obtain ⟨e1, e2⟩ := pbuffer_safe_extract_some hn hext
  obtain ⟨s1, s2, s3, -⟩ := pbuffer_safe_shift_some hwf1 hinv1 hn e2
  refine ⟨_, b1, b2, pbuffer_init_eq, rfl, rfl, rfl, hadd, ?_, hl1, hc1, ?_, ?_, ?_, ?_⟩
  · unfold pbuffer_inv at hinv1
    omega
  · rw [hext, e1, hc1]
  · rw [s1, hl1]
  · rw [s2, a2]
  · rw [s3, hc1]

/-- Witness for C9 with the payload of 200 bytes `65` and a destination of 50 bytes. -/
theorem pbuffer_scenario_200_50_witness :
    (List.replicate 200 65).length = 200 ∧ 50 ≤ (List.replicate 50 0).length ∧
      ∃ b0 b1 b2, pbuffer_init = some b0 ∧
        b0.allocated = 120 ∧ b0.length = 0 ∧ b0.data = 0 ∧
        pbuffer_add b0 (List.replicate 200 65) 200 = some b1 ∧
        200 ≤ b1.allocated ∧ b1.length = 200 ∧
        pbuffer_content b1 = List.replicate 200 65 ∧
        pbuffer_safe_extract b1 (List.replicate 50 0) 50 =
          some (b2, (List.replicate 200 65).take 50 ++ (List.replicate 50 0).drop 50) ∧
        b2.length = 150 ∧ b2.data = 50 ∧
        pbuffer_content b2 = (List.replicate 200 65).drop 50 :=
  ⟨by decide, by decide,
    pbuffer_scenario_200_50 (List.replicate 200 65) (List.replicate 50 0)
      (by decide) (by decide)⟩

theorem pbuffer_ext_preserved {b b' : pbuffer} (hwf : pbuffer_wf b) (h : pbuffer_ext b b') :
    pbuffer_preserved b b' := by
  obtain ⟨h1, h2, h3⟩ := pbuffer_ext_fields h
  exact ⟨h3, h2, h1, pbuffer_ext_take hwf h, pbuffer_ext_drop hwf h⟩

/-- C10: on a buffer whose block has the recorded size, a `pbuffer_grow` or
`pbuffer_assure` that returns never lowers `allocated`, keeps the cursor and `length`,
leaves every byte of the old block as it was, and the bytes from the old capacity to the
new one are zero; both calls return whenever the capacity is below `2 ^ 61`. -/
theorem pbuffer_grow_preserves (b : pbuffer) (size : Nat) (hwf : pbuffer_wf b) :
    (∀ b' r, pbuffer_grow b size = some (b', r) → pbuffer_preserved b b') ∧
      (∀ b', pbuffer_assure b size = some b' → pbuffer_preserved b b') ∧
      (b.allocated < 2 ^ 61 →
        (∃ p, pbuffer_grow b size = some p) ∧ ∃ b', pbuffer_assure b size = some b') := by
  refine ⟨fun b' r h => ?_, fun b' h => ?_, fun hA => ⟨?_, ?_⟩⟩
  · exact pbuffer_ext_preserved hwf (pbuffer_grow_some hwf h).1
  · exact pbuffer_ext_preserved hwf (pbuffer_assure_some hwf h).1
  · exact pbuffer_grow_isSome b size hwf (by omega)
  · obtain ⟨b', h, -⟩ := pbuffer_assure_isSome b size 61 hwf (by decide) (by decide) hA
    exact ⟨b', h⟩

/-- Witness for C10 on `sample_buffer` with a request of 9 bytes. -/
theorem pbuffer_grow_preserves_witness :
    pbuffer_wf sample_buffer ∧
      (∀ b' r, pbuffer_grow sample_buffer 9 = some (b', r) →
          pbuffer_preserved sample_buffer b') ∧
        (∀ b', pbuffer_assure sample_buffer 9 = some b' → pbuffer_preserved sample_buffer b') ∧
        (∃ p, pbuffer_grow sample_buffer 9 = some p) ∧
          ∃ b', pbuffer_assure sample_buffer 9 = some b' :=
  ⟨by decide, (pbuffer_grow_preserves sample_buffer 9 (by decide)).1,
    (pbuffer_grow_preserves sample_buffer 9 (by decide)).2.1,
    (pbuffer_grow_preserves sample_buffer 9 (by decide)).2.2 (by decide)⟩

/-! ## Formatted output -/

theorem pbuffer_init_initial : pbuffer_init = some initial_buffer :=
  pbuffer_init_eq

theorem vsnprintf_snd {block out : List Nat} {off size : Nat} {r : List Nat} {needed : Int}
    (h : vsnprintf block off size r = some (out, needed)) : needed = vsnprintf_ret r := by
  unfold vsnprintf at h
  split_ifs at h with h0
  · cases h
    rfl
  · cases hm : memcpy block off (r.take (size - 1) ++ [0]) ((r.take (size - 1)).length + 1) with
    | none => rw [hm] at h; cases h
    | some m =>
      rw [hm] at h
      cases h
      rfl

theorem pbuffer_sprintf_loop_never_returns (len : Int) (r : List Nat)
    (h : len < vsnprintf_ret r) :
    ∀ (fuel : Nat) (b b' : pbuffer), pbuffer_sprintf_loop fuel b len r ≠ outcome.returned b' := by
  intro fuel
  induction fuel with
  | zero =>
    intro b b' hc
    unfold pbuffer_sprintf_loop at hc
    cases hc
  | succ n ih =>
    intro b b' hc
    unfold pbuffer_sprintf_loop at hc
    cases hv : vsnprintf b.start b.data (to_size len) r with
    | none => rw [hv] at hc; cases hc
    | some p =>
      obtain ⟨s, needed⟩ := p
      rw [hv] at hc
      have hn := vsnprintf_snd hv
      subst hn
      simp only [gt_iff_lt, h, if_true] at hc
      cases ha : pbuffer_assure { b with start := s } (to_size (vsnprintf_ret r)) with
      | none => rw [ha] at hc; cases hc
      | some e =>
        rw [ha] at hc
        exact ih e b' hc

theorem pbuffer_add_sprintf_loop_never_returns (len : Int) (r : List Nat)
    (h : len < vsnprintf_ret r) :
    ∀ (fuel : Nat) (b b' : pbuffer),
      pbuffer_add_sprintf_loop fuel b len r ≠ outcome.returned b' := by
  intro fuel
  induction fuel with
  | zero =>
    intro b b' hc
    unfold pbuffer_add_sprintf_loop at hc
    cases hc
  | succ n ih =>
    intro b b' hc
    unfold pbuffer_add_sprintf_loop at hc
    cases hv : vsnprintf b.start (pbuffer_end b) (to_size len) r with
    | none => rw [hv] at hc; cases hc
    | some p =>
      obtain ⟨s, needed⟩ := p
      rw [hv] at hc
      have hn := vsnprintf_snd hv
      subst hn
      simp only [gt_iff_lt, h, if_true] at hc
      cases ha : pbuffer_assure { b with start := s }
          (to_size ((b.length : Int) + vsnprintf_ret r)) with
      | none => rw [ha] at hc; cases hc
      | some e =>
        rw [ha] at hc
        exact ih e b' hc

theorem pbuffer_sprintf_loop_succ (fuel : Nat) (b b' : pbuffer) (len needed : Int)
    (r s : List Nat) (h1 : vsnprintf b.start b.data (to_size len) r = some (s, needed))
    (h2 : needed > len)
    (h3 : pbuffer_assure { b with start := s } (to_size needed) = some b') :
    pbuffer_sprintf_loop (fuel + 1) b len r = pbuffer_sprintf_loop fuel b' len r := by
  rw [pbuffer_sprintf_loop, h1]
  simp only [h2, if_true]
  rw [h3]

theorem pbuffer_add_sprintf_loop_succ (fuel : Nat) (b b' : pbuffer) (len needed : Int)
    (r s : List Nat)
    (h1 : vsnprintf b.start (pbuffer_end b) (to_size len) r = some (s, needed))
    (h2 : needed > len)
    (h3 : pbuffer_assure { b with start := s } (to_size ((b.length : Int) + needed)) = some b') :
    pbuffer_add_sprintf_loop (fuel + 1) b len r = pbuffer_add_sprintf_loop fuel b' len r := by
  rw [pbuffer_add_sprintf_loop, h1]
  simp only [h2, if_true]
  rw [h3]

/-- A state that an iteration of the loop of `pbuffer_sprintf` maps to itself keeps the
loop running for every number of iterations. -/
theorem pbuffer_sprintf_loop_fixed (b : pbuffer) (len needed : Int) (r : List Nat)
    (h1 : vsnprintf b.start b.data (to_size len) r = some (b.start, needed))
    (h2 : needed > len) (h3 : pbuffer_assure b (to_size needed) = some b) :
    ∀ fuel, pbuffer_sprintf_loop fuel b len r = outcome.looping := by
  intro fuel
  induction fuel with
  | zero => rfl
  | succ n ih => rw [pbuffer_sprintf_loop_succ n b b len needed r b.start h1 h2 h3, ih]

theorem pbuffer_add_sprintf_loop_fixed (b : pbuffer) (len needed : Int) (r : List Nat)
    (h1 : vsnprintf b.start (pbuffer_end b) (to_size len) r = some (b.start, needed))
    (h2 : needed > len)
    (h3 : pbuffer_assure b (to_size ((b.length : Int) + needed)) = some b) :
    ∀ fuel, pbuffer_add_sprintf_loop fuel b len r = outcome.looping := by
  intro fuel
  induction fuel with
  | zero => rfl
  | succ n ih => rw [pbuffer_add_sprintf_loop_succ n b b len needed r b.start h1 h2 h3, ih]

theorem pbuffer_sprintf_121_loops :
    ∀ fuel, pbuffer_sprintf fuel initial_buffer (List.replicate 121 97) = outcome.looping := by
  intro fuel
  have hfix := pbuffer_sprintf_loop_fixed
    ⟨0, 504, List.replicate 119 97 ++ List.replicate 385 0, 0⟩ 120 121 (List.replicate 121 97)
    (by decide) (by decide) (by decide)
  match fuel with
  | 0 => rfl
  | 1 => decide
  | n + 2 =>
    show pbuffer_sprintf_loop (n + 1 + 1) initial_buffer 120 (List.replicate 121 97) = _
    rw [pbuffer_sprintf_loop_succ (n + 1) initial_buffer
        ⟨0, 248, List.replicate 119 97 ++ List.replicate 129 0, 0⟩ 120 121
        (List.replicate 121 97) (List.replicate 119 97 ++ [0])
        (by decide) (by decide) (by decide),
      pbuffer_sprintf_loop_succ n ⟨0, 248, List.replicate 119 97 ++ List.replicate 129 0, 0⟩
        ⟨0, 504, List.replicate 119 97 ++ List.replicate 385 0, 0⟩ 120 121
        (List.replicate 121 97) (List.replicate 119 97 ++ List.replicate 129 0)
        (by decide) (by decide) (by decide)]
    exact hfix n

theorem pbuffer_add_sprintf_121_loops :
    ∀ fuel, pbuffer_add_sprintf fuel initial_buffer (List.replicate 121 97) =
      outcome.looping := by
  intro fuel
  have hfix := pbuffer_add_sprintf_loop_fixed
    ⟨0, 504, List.replicate 119 97 ++ List.replicate 385 0, 0⟩ 120 121 (List.replicate 121 97)
    (by decide) (by decide) (by decide)
  match fuel with
  | 0 => rfl
  | 1 => decide
  | n + 2 =>
    show pbuffer_add_sprintf_loop (n + 1 + 1) initial_buffer 120 (List.replicate 121 97) = _
    rw [pbuffer_add_sprintf_loop_succ (n + 1) initial_buffer
        ⟨0, 248, List.replicate 119 97 ++ List.replicate 129 0, 0⟩ 120 121
        (List.replicate 121 97) (List.replicate 119 97 ++ [0])
        (by decide) (by decide) (by decide),
      pbuffer_add_sprintf_loop_succ n
        ⟨0, 248, List.replicate 119 97 ++ List.replicate 129 0, 0⟩
        ⟨0, 504, List.replicate 119 97 ++ List.replicate 385 0, 0⟩ 120 121
        (List.replicate 121 97) (List.replicate 119 97 ++ List.replicate 129 0)
        (by decide) (by decide) (by decide)]
    exact hfix n

/-! ## The claims on formatted output -/

/-- C12: `pbuffer_sprintf` on the initial buffer with a rendered string of 121 bytes never
returns (for every number of iterations the loop is still running); with a rendered string
of exactly 120 bytes it returns with the last byte replaced by the terminator; and on
`sample_buffer`, which holds 3 bytes, a rendered string of 2 bytes leaves `length = 5`. -/
theorem pbuffer_sprintf_defects :
    (∀ fuel, pbuffer_sprintf fuel initial_buffer (List.replicate 121 97) = outcome.looping) ∧
      pbuffer_sprintf 1 initial_buffer (List.replicate 120 97) =
        outcome.returned ⟨120, 120, List.replicate 119 97 ++ [0], 0⟩ ∧
      pbuffer_content ⟨120, 120, List.replicate 119 97 ++ [0], 0⟩ ≠ List.replicate 120 97 ∧
      pbuffer_sprintf 1 sample_buffer [104, 105] =
        outcome.returned ⟨5, 8, [9, 104, 105, 0, 0, 0, 0, 0], 1⟩ :=
  ⟨pbuffer_sprintf_121_loops, by decide, by decide, by decide⟩

/-- C13: `pbuffer_add_sprintf` on the initial buffer (120 unused bytes) with a rendered
string of exactly 120 bytes returns with `length = 120` and only 119 bytes of the string
followed by the terminator; with 121 bytes it never returns. -/
theorem pbuffer_add_sprintf_defects :
    pbuffer_add_sprintf 1 initial_buffer (List.replicate 120 97) =
        outcome.returned ⟨120, 120, List.replicate 119 97 ++ [0], 0⟩ ∧
      pbuffer_content ⟨120, 120, List.replicate 119 97 ++ [0], 0⟩ ≠ List.replicate 120 97 ∧
      (∀ fuel, pbuffer_add_sprintf fuel initial_buffer (List.replicate 121 97) =
        outcome.looping) :=
  ⟨by decide, by decide, pbuffer_add_sprintf_121_loops⟩

/-- C14: when the first attempt reports a required length above the limit `len`, neither
`pbuffer_sprintf` nor `pbuffer_add_sprintf` returns, whatever the number of iterations:
`len` is never changed inside the loop, so every later attempt is made with the same
limit. -/
theorem pbuffer_sprintf_no_exit (fuel : Nat) (b b' : pbuffer) (r : List Nat) :
    (to_int b.allocated < vsnprintf_ret r →
        pbuffer_sprintf fuel b r ≠ outcome.returned b') ∧
      (to_int (to_size (pbuffer_unused b)) < vsnprintf_ret r →
        pbuffer_add_sprintf fuel b r ≠ outcome.returned b') :=
  ⟨fun h => pbuffer_sprintf_loop_never_returns _ r h fuel b b',
    fun h => pbuffer_add_sprintf_loop_never_returns _ r h fuel b b'⟩

/-- Witness for C14: the initial buffer, a rendered string of 121 bytes, 1000 iterations. -/
theorem pbuffer_sprintf_no_exit_witness :
    to_int initial_buffer.allocated < vsnprintf_ret (List.replicate 121 97) ∧
      pbuffer_sprintf 1000 initial_buffer (List.replicate 121 97) ≠
        outcome.returned initial_buffer ∧
      to_int (to_size (pbuffer_unused initial_buffer)) <
        vsnprintf_ret (List.replicate 121 97) ∧
      pbuffer_add_sprintf 1000 initial_buffer (List.replicate 121 97) ≠
        outcome.returned initial_buffer :=
  ⟨by decide,
    (pbuffer_sprintf_no_exit 1000 initial_buffer initial_buffer (List.replicate 121 97)).1
      (by decide),
    by decide,
    (pbuffer_sprintf_no_exit 1000 initial_buffer initial_buffer (List.replicate 121 97)).2
      (by decide)⟩

/-! ## Replacing the content -/

theorem pbuffer_ext_inv {b b' : pbuffer} (hinv : pbuffer_inv b) (h : pbuffer_ext b b') :
    pbuffer_inv b' := by
  obtain ⟨h1, h2, h3⟩ := pbuffer_ext_fields h
  unfold pbuffer_inv at *
  omega

theorem pbuffer_set_some {b b' : pbuffer} {data : List Nat} {size : Nat}
    (hwf : pbuffer_wf b) (h : pbuffer_set b data size = some b') :
    b'.data = b.data ∧ b'.length = size ∧ pbuffer_content b' = data.take size ∧
      size ≤ data.length ∧ b.allocated ≤ b'.allocated ∧ pbuffer_wf b' ∧ pbuffer_inv b' := by
  unfold pbuffer_set at h
  cases ha : pbuffer_assure b size with
  | none => rw [ha] at h; cases h
  | some e =>
    rw [ha] at h
    simp only at h
    obtain ⟨hext, hwe⟩ := pbuffer_assure_some hwf ha
    obtain ⟨hl, hd, hle⟩ := pbuffer_ext_fields hext
    cases hm : memcpy e.start e.data data size with
    | none => rw [hm] at h; cases h
    | some m =>
      rw [hm] at h
      obtain ⟨hb1, hb2, hmeq⟩ := memcpy_some_bounds hm
      have he1 := hwe.1
      have hsz : (data.take size).length = size := by
        rw [List.length_take]; omega
      cases h
      refine ⟨hd, rfl, ?_, hb2, hle, ⟨?_, hwe.2⟩, ?_⟩
      · unfold pbuffer_content
        simp only [hmeq]
        rw [List.append_assoc, List.drop_append_of_le_length (by rw [List.length_take]; omega)]
        have h0 : List.drop e.data (List.take e.data e.start) = [] :=
          List.drop_of_length_le (by rw [List.length_take]; omega)
        rw [h0, List.nil_append]
        exact List.take_left' hsz
      · simp only [hmeq]
        simp only [List.length_append, List.length_take, List.length_drop]
        omega
      · unfold pbuffer_inv
        simp only
        omega

theorem pbuffer_set_isSome (b : pbuffer) (data : List Nat) (size k : Nat)
    (hwf : pbuffer_wf b) (hinv : pbuffer_inv b) (hdata : size ≤ data.length)
    (hroom : size + b.data ≤ 2 * b.allocated ∨ size + b.data ≤ PBUFFER_MIN)
    (hk : 7 ≤ k) (hk2 : k + 2 ≤ 63) (hA : b.allocated < 2 ^ k) :
    ∃ b', pbuffer_set b data size = some b' := by
  have hp3 : (2 : Nat) ^ k ≤ 2 ^ 61 := Nat.pow_le_pow_right (by decide) (by omega)
  unfold pbuffer_inv at hinv
  have hmin : PBUFFER_MIN = 120 := rfl
  obtain ⟨e, ha, -⟩ := pbuffer_assure_isSome b size k hwf hk hk2 hA
  obtain ⟨hext, hwe⟩ := pbuffer_assure_some hwf ha
  obtain ⟨hl, hd, hle⟩ := pbuffer_ext_fields hext
  have hfit : b.data + size ≤ e.allocated := by
    by_cases hc : to_size (pbuffer_unused b) < size
    · have := pbuffer_assure_grows hwf (by omega) hc ha
      omega
    · have hu : to_size (pbuffer_unused b) = b.allocated - (b.data + b.length) := by
        unfold pbuffer_unused pbuffer_end
        have := to_size_sub b.allocated (b.data + b.length) hinv hwf.2
        push_cast at this ⊢
        exact this
      rw [hu] at hc
      omega
  unfold pbuffer_set
  rw [ha]
  simp only
  unfold memcpy
  rw [if_pos ⟨by rw [hwe.1, hd]; exact hfit, hdata⟩]
  exact ⟨_, rfl⟩

/-! ## Strings -/

theorem takeWhile_nonzero (str rest : List Nat) (h : 0 ∉ str) :
    (str ++ 0 :: rest).takeWhile (fun c => c ≠ 0) = str := by
  induction str with
  | nil => simp
  | cons c cs ih =>
    have hc : c ≠ 0 := fun hc => h (by simp [hc])
    have hcs : 0 ∉ cs := fun hm => h (List.mem_cons_of_mem _ hm)
    rw [List.cons_append, List.takeWhile_cons_of_pos (by simpa using hc), ih hcs]

theorem strlen_terminated (str rest : List Nat) (h : 0 ∉ str) :
    strlen (str ++ 0 :: rest) = some str.length := by
  unfold strlen
  rw [if_pos (by simp), takeWhile_nonzero str rest h]

theorem strncpy_terminated (block : List Nat) (off : Nat) (str rest : List Nat)
    (h : 0 ∉ str) :
    strncpy block off (str ++ 0 :: rest) str.length =
      memcpy block off (str ++ 0 :: rest) str.length := by
  unfold strncpy
  simp only [takeWhile_nonzero str rest h]
  rw [if_pos (le_refl _)]

theorem pbuffer_strcat_eq_add (b : pbuffer) (str rest : List Nat) (hwf : pbuffer_wf b)
    (h : 0 ∉ str) :
    pbuffer_strcat b (str ++ 0 :: rest) = pbuffer_add b (str ++ 0 :: rest) str.length := by
  unfold pbuffer_strcat pbuffer_add
  rw [strlen_terminated str rest h]
  simp only
  rw [Nat.add_comm b.length str.length]
  cases ha : pbuffer_assure b ((str.length + b.length) % SIZE_MOD) with
  | none => rfl
  | some e =>
    obtain ⟨hext, -⟩ := pbuffer_assure_some hwf ha
    obtain ⟨hl, -, -⟩ := pbuffer_ext_fields hext
    simp only
    rw [strncpy_terminated _ _ str rest h]
    unfold pbuffer_end
    rw [hl, Nat.add_comm b.length str.length]

theorem pbuffer_strcpy_some {b b' : pbuffer} {str rest : List Nat}
    (hwf : pbuffer_wf b) (h0 : 0 ∉ str)
    (h : pbuffer_strcpy b (str ++ 0 :: rest) = some b') :
    b.data = 0 ∧ b'.data = 0 ∧ b'.length = str.length ∧ pbuffer_content b' = str ∧
      b'.start.drop str.length = List.replicate (b'.allocated - str.length) 0 ∧
      pbuffer_wf b' ∧ pbuffer_inv b' := by
  unfold pbuffer_strcpy at h
  rw [strlen_terminated str rest h0] at h
  simp only at h
  cases ha : pbuffer_assure b str.length with
  | none => rw [ha] at h; cases h
  | some e =>
    rw [ha] at h
    simp only at h
    obtain ⟨hext, hwe⟩ := pbuffer_assure_some hwf ha
    obtain ⟨hl, hd, hle⟩ := pbuffer_ext_fields hext
    rw [strncpy_terminated _ _ str rest h0] at h
    cases hm : memcpy e.start e.data (str ++ 0 :: rest) str.length with
    | none => rw [hm] at h; cases h
    | some m =>
      rw [hm] at h
      simp only at h
      obtain ⟨hb1, -, hmeq⟩ := memcpy_some_bounds hm
      have he1 := hwe.1
      have he2 := hwe.2
      have hts : to_size ((e.allocated : Int) - (str.length : Int)) =
          e.allocated - str.length := to_size_sub _ _ (by omega) he2
      rw [hts] at h
      have hmlen : m.length = e.allocated := by
        rw [hmeq]
        simp only [List.length_append, List.length_take, List.length_drop]
        omega
      unfold memset at h
      split_ifs at h with hc
      rw [hmlen] at hc
      have hd0 : e.data = 0 := by omega
      have htk : List.take str.length (str ++ 0 :: rest) = str := List.take_left' rfl
      rw [hd0, htk] at hmeq
      simp only [List.take_zero, List.nil_append, Nat.zero_add] at hmeq
      have hmt : List.take str.length m = str := by
        rw [hmeq]
        exact List.take_left' rfl
      have hdrop : List.drop (e.data + str.length + (e.allocated - str.length)) m = [] :=
        List.drop_of_length_le (by rw [hmlen]; omega)
      cases h
      simp only [hd0, Nat.zero_add] at hdrop ⊢
      rw [hmt, hdrop, List.append_nil]
      refine ⟨by rw [← hd, hd0], trivial, trivial, ?_, ?_, ⟨?_, he2⟩, ?_⟩
      · unfold pbuffer_content
        simp only [List.drop_zero]
        exact List.take_left' rfl
      · exact List.drop_left' rfl
      · simp only [List.length_append, List.length_replicate]
        omega
      · unfold pbuffer_inv
        simp only
        omega

/-! ## The window invariant, for calls that stay inside the block -/

theorem pbuffer_inv_of_defined (b : pbuffer) (hwf : pbuffer_wf b) (hinv : pbuffer_inv b) :
    (∀ size b', pbuffer_assure b size = some b' → pbuffer_inv b') ∧
    (∀ data size b', pbuffer_set b data size = some b' → pbuffer_inv b') ∧
    (∀ data size b', pbuffer_add b data size = some b' → pbuffer_inv b') ∧
    (∀ num b', pbuffer_add_uint b num = some b' → pbuffer_inv b') ∧
    (∀ str rest b', 0 ∉ str → pbuffer_strcpy b (str ++ 0 :: rest) = some b' →
      pbuffer_inv b') ∧
    (∀ str rest b', 0 ∉ str → pbuffer_strcat b (str ++ 0 :: rest) = some b' →
      pbuffer_inv b') ∧
    (∀ b', pbuffer_consume b = some b' → pbuffer_inv b') ∧
    (∀ size b', size ≤ b.length → pbuffer_shift b size = some b' → pbuffer_inv b') ∧
    (∀ size b', size ≤ b.length → pbuffer_safe_shift b size = some b' → pbuffer_inv b') ∧
    (∀ dest len b' dest', pbuffer_extract b dest len = some (b', dest') → pbuffer_inv b') ∧
    (∀ dest len b' dest', pbuffer_safe_extract b dest len = some (b', dest') →
      pbuffer_inv b') ∧
    (∀ src len b', pbuffer_copy b src len = some b' → pbuffer_inv b') ∧
    pbuffer_inv (pbuffer_clear b) := by
  refine ⟨?_, ?_, ?_, ?_, ?_, ?_, ?_, ?_, ?_, ?_, ?_, ?_, ?_⟩
  · intro size b' h
    exact pbuffer_ext_inv hinv (pbuffer_assure_some hwf h).1
  · intro data size b' h
    exact (pbuffer_set_some hwf h).2.2.2.2.2.2
  · intro data size b' h
    exact (pbuffer_add_some hwf hinv h).2.2.2.2.2.2
  · intro num b' h
    exact (pbuffer_add_some hwf hinv h).2.2.2.2.2.2
  · intro str rest b' h0 h
    exact (pbuffer_strcpy_some hwf h0 h).2.2.2.2.2.2
  · intro str rest b' h0 h
    rw [pbuffer_strcat_eq_add b str rest hwf h0] at h
    exact (pbuffer_add_some hwf hinv h).2.2.2.2.2.2
  · intro b' h
    obtain ⟨c, hc, -, -, -, -, -, -, ci⟩ := pbuffer_consume_spec b hwf hinv
    rw [hc] at h
    cases h
    exact ci
  · intro size b' hn h
    exact (pbuffer_shift_some hwf hinv hn h).2.2.2.2.2
  · intro size b' hn h
    exact (pbuffer_safe_shift_some hwf hinv hn h).2.2.2.2.2.2
  · intro dest len b' dest' h
    by_cases hl : len > b.length
    · unfold pbuffer_extract at h
      rw [if_pos hl] at h
      cases h
      exact hinv
    · have hn : len ≤ b.length := by omega
      exact (pbuffer_shift_some hwf hinv hn (pbuffer_extract_some hn h).2).2.2.2.2.2
  · intro dest len b' dest' h
    by_cases hl : len > b.length
    · unfold pbuffer_safe_extract at h
      rw [if_pos hl] at h
      cases h
      exact hinv
    · have hn : len ≤ b.length := by omega
      exact (pbuffer_safe_shift_some hwf hinv hn
        (pbuffer_safe_extract_some hn h).2).2.2.2.2.2.2
  · intro src len b' h
    exact (pbuffer_add_some hwf hinv h).2.2.2.2.2.2
  · unfold pbuffer_inv pbuffer_clear pbuffer_start
    simp

/-! ## The remaining claims -/

/-- C11: the window invariant holds for the state of `pbuffer_init` but `pbuffer_add` of
1000 bytes to it does not keep it: `pbuffer_assure` leaves a capacity of 504 bytes, so
the stored length 1000 exceeds the capacity (and the copy leaves the block). -/
theorem pbuffer_add_breaks_invariant :
    pbuffer_init.map (fun b => decide (pbuffer_inv b)) = some true ∧
      (pbuffer_init.bind (fun b => pbuffer_assure b ((1000 + b.length) % SIZE_MOD))).map
        (fun e => (e.allocated, decide (e.data + (e.length + 1000) ≤ e.allocated))) =
        some (504, false) ∧
      pbuffer_init.bind (fun b => pbuffer_add b (List.replicate 1000 7) 1000) = none := by
  decide

/-- C15: `pbuffer_set` of 505 bytes on the initial buffer, which satisfies the window
invariant, copies 505 bytes to offset 0 of a block that `pbuffer_assure` left at 504
bytes. -/
theorem pbuffer_set_overruns_block :
    pbuffer_inv initial_buffer ∧
      (pbuffer_assure initial_buffer 505).map (fun e => (e.allocated, e.start.length, e.data)) =
        some (504, 504, 0) ∧
      pbuffer_set initial_buffer (List.replicate 505 7) 505 = none := by
  decide

/-- C16: on every buffer whose cursor is not at the start of the block, `pbuffer_strcpy`
writes past the block: the zero-fill starts at `data + size` and has `allocated - size`
bytes, so it ends `data` bytes after the end of the block. -/
theorem pbuffer_strcpy_overruns (b : pbuffer) (str rest : List Nat) (hwf : pbuffer_wf b)
    (h0 : 0 ∉ str) (hd : 0 < b.data) : pbuffer_strcpy b (str ++ 0 :: rest) = none := by
  cases h : pbuffer_strcpy b (str ++ 0 :: rest) with
  | none => rfl
  | some b' =>
    have := (pbuffer_strcpy_some hwf h0 h).1
    omega

/-- Witness for C16: the buffer reached from the initial one by appending 10 bytes and
consuming 3 with `pbuffer_safe_shift`, and the string `"hi"`. -/
theorem pbuffer_strcpy_overruns_witness :
    (pbuffer_add initial_buffer (List.range 10) 10).bind (fun b => pbuffer_safe_shift b 3) =
        some ⟨7, 248, List.range 10 ++ List.replicate 238 0, 3⟩ ∧
      pbuffer_wf ⟨7, 248, List.range 10 ++ List.replicate 238 0, 3⟩ ∧
      pbuffer_inv ⟨7, 248, List.range 10 ++ List.replicate 238 0, 3⟩ ∧
      0 ∉ [104, 105] ∧
      pbuffer_strcpy ⟨7, 248, List.range 10 ++ List.replicate 238 0, 3⟩
        ([104, 105] ++ 0 :: []) = none :=
  ⟨by decide, by decide, by decide, by decide,
    pbuffer_strcpy_overruns ⟨7, 248, List.range 10 ++ List.replicate 238 0, 3⟩ [104, 105] []
      (by decide) (by decide) (by decide)⟩

theorem pbuffer_unused_eq (b : pbuffer) (hwf : pbuffer_wf b) (hinv : pbuffer_inv b) :
    pbuffer_unused b = ((b.allocated - (b.data + b.length) : Nat) : Int) ∧
      to_size (pbuffer_unused b) = b.allocated - (b.data + b.length) := by
  unfold pbuffer_inv at hinv
  have h2 := hwf.2
  unfold pbuffer_unused pbuffer_end to_size
  unfold SIZE_MOD at *
  constructor <;> omega

theorem pbuffer_grow_reallocates (b : pbuffer) (size : Nat) (hwf : pbuffer_wf b)
    (hg : ¬ size < to_size (pbuffer_unused b)) (hA : b.allocated < 2 ^ 63) :
    ∃ b', pbuffer_grow b size = some (b', (b.allocated * 2) ||| PBUFFER_MIN) ∧
      b'.allocated = (b.allocated * 2) ||| PBUFFER_MIN ∧
      max (b.allocated * 2) PBUFFER_MIN ≤ b'.allocated := by
  obtain ⟨⟨b', r⟩, h⟩ := pbuffer_grow_isSome b size hwf hA
  obtain ⟨-, -, hr, hN⟩ := pbuffer_grow_some hwf h
  have hN1 := hN hg
  have hmod : (b.allocated * 2) % SIZE_MOD = b.allocated * 2 := by
    apply Nat.mod_eq_of_lt
    unfold SIZE_MOD
    omega
  have hnew : grow_newsize b.allocated = (b.allocated * 2) ||| PBUFFER_MIN := by
    unfold grow_newsize
    rw [hmod]
  have hge := grow_newsize_ge b.allocated hA
  rw [hnew] at hN1 hge
  refine ⟨b', ?_, hN1, ?_⟩
  · rw [h, hr, hN1]
  · rw [hN1]
    exact max_le (by omega) hge.2

/-- C17 as stated fails: from the initial capacity 120 a growing `pbuffer_grow` gives
248, not `max (120 * 2) 120 = 240`. -/
theorem pbuffer_grow_max_counterexample :
    ¬ (∀ (b b' : pbuffer) (size r : Nat), pbuffer_wf b → pbuffer_inv b →
        ¬ size < to_size (pbuffer_unused b) → pbuffer_grow b size = some (b', r) →
        b'.allocated = max (b.allocated * 2) PBUFFER_MIN) := by
  intro h
  have hg : pbuffer_grow initial_buffer 200 =
      some (⟨0, 248, List.replicate 248 0, 0⟩, 248) := by decide
  have := h initial_buffer _ 200 _ (by decide) (by decide) (by decide) hg
  revert this
  decide

/-- C17 amended: whenever `pbuffer_grow` does not return early, the new capacity is the
bitwise or of `allocated * 2` (as a `size_t`) and `PBUFFER_MIN`, which is also the value
returned; for a capacity below `2 ^ 63` the call returns and the new capacity is at least
`max (allocated * 2) PBUFFER_MIN`. -/
theorem pbuffer_grow_capacity (b : pbuffer) (size : Nat) (hwf : pbuffer_wf b)
    (hg : ¬ size < to_size (pbuffer_unused b)) :
    (∀ b' r, pbuffer_grow b size = some (b', r) →
        b'.allocated = ((b.allocated * 2) % SIZE_MOD) ||| PBUFFER_MIN ∧ r = b'.allocated) ∧
      (b.allocated < 2 ^ 63 →
        ∃ b', pbuffer_grow b size = some (b', (b.allocated * 2) ||| PBUFFER_MIN) ∧
          b'.allocated = (b.allocated * 2) ||| PBUFFER_MIN ∧
          max (b.allocated * 2) PBUFFER_MIN ≤ b'.allocated) := by
  constructor
  · intro b' r h
    obtain ⟨-, -, hr, hN⟩ := pbuffer_grow_some hwf h
    exact ⟨hN hg, hr⟩
  · intro hA
    exact pbuffer_grow_reallocates b size hwf hg hA

/-- Witness for the amended C17: the initial buffer and a request of 200 bytes give 248. -/
theorem pbuffer_grow_capacity_witness :
    pbuffer_wf initial_buffer ∧ ¬ 200 < to_size (pbuffer_unused initial_buffer) ∧
      (∀ b' r, pbuffer_grow initial_buffer 200 = some (b', r) →
        b'.allocated = ((initial_buffer.allocated * 2) % SIZE_MOD) ||| PBUFFER_MIN ∧
          r = b'.allocated) ∧
      (∃ b', pbuffer_grow initial_buffer 200 =
          some (b', (initial_buffer.allocated * 2) ||| PBUFFER_MIN) ∧
        b'.allocated = (initial_buffer.allocated * 2) ||| PBUFFER_MIN ∧
        max (initial_buffer.allocated * 2) PBUFFER_MIN ≤ b'.allocated) ∧
      (initial_buffer.allocated * 2) ||| PBUFFER_MIN = 248 :=
  ⟨by decide, by decide,
    (pbuffer_grow_capacity initial_buffer 200 (by decide) (by decide)).1,
    (pbuffer_grow_capacity initial_buffer 200 (by decide) (by decide)).2 (by decide),
    by decide⟩

/-- C18: `pbuffer_assure` reallocates although the request already fits.  The initial
buffer has 120 unused bytes and a request of 1 byte reallocates it to 248 bytes: the
local `ret` starts at 0, so the retry test `ret < size` fires although the first test
found enough room.  The call is not idempotent either: a request of 121 bytes gives 248
bytes, which satisfies it, and the same request again gives 504 bytes. -/
theorem pbuffer_assure_grows_needlessly :
    pbuffer_inv initial_buffer ∧ (1 : Int) ≤ pbuffer_unused initial_buffer ∧
      pbuffer_assure initial_buffer 1 = some ⟨0, 248, List.replicate 248 0, 0⟩ ∧
      pbuffer_assure initial_buffer 121 = some ⟨0, 248, List.replicate 248 0, 0⟩ ∧
      (121 : Int) ≤ pbuffer_unused ⟨0, 248, List.replicate 248 0, 0⟩ ∧
      pbuffer_assure ⟨0, 248, List.replicate 248 0, 0⟩ 121 =
        some ⟨0, 504, List.replicate 504 0, 0⟩ := by
  decide

/-- No buffer-independent guarantee that `pbuffer_assure` keeps `allocated` when the
request already fits: the initial buffer with a request of 1 byte refutes it. -/
theorem pbuffer_assure_unchanged_counterexample :
    ¬ (∀ (b b' : pbuffer) (size : Nat), pbuffer_wf b → pbuffer_inv b →
        (size : Int) ≤ pbuffer_unused b → pbuffer_assure b size = some b' →
        b'.allocated = b.allocated) := by
  intro h
  have ha : pbuffer_assure initial_buffer 1 = some ⟨0, 248, List.replicate 248 0, 0⟩ := by
    decide
  have := h initial_buffer _ 1 (by decide) (by decide) (by decide) ha
  revert this
  decide

/-- What `pbuffer_assure` does when `unused ≥ size` before the call: the whole state is
unchanged when `size = 0` or when the doubled request `(size * 2) | PBUFFER_MIN` is
below `unused`; in the remaining case it reallocates once, to
`(allocated * 2) | PBUFFER_MIN` (the call returns for a capacity below `2 ^ 63`). -/
theorem pbuffer_assure_unchanged (b : pbuffer) (size : Nat) (hwf : pbuffer_wf b)
    (hinv : pbuffer_inv b) (hsz : (size : Int) ≤ pbuffer_unused b) :
    ((size = 0 ∨ ((((size * 2) % SIZE_MOD) ||| PBUFFER_MIN : Nat) : Int) < pbuffer_unused b) →
        pbuffer_assure b size = some b) ∧
      (0 < size →
        pbuffer_unused b ≤ ((((size * 2) % SIZE_MOD) ||| PBUFFER_MIN : Nat) : Int) →
        b.allocated < 2 ^ 63 →
        ∃ b', pbuffer_assure b size = some b' ∧
          b'.allocated = (b.allocated * 2) ||| PBUFFER_MIN ∧ b.allocated < b'.allocated) := by
  obtain ⟨hu1, hu2⟩ := pbuffer_unused_eq b hwf hinv
  have hnot : ¬ to_size (pbuffer_unused b) < size := by
    rw [hu2]
    rw [hu1] at hsz
    omega
  rw [pbuffer_assure_eq, if_neg hnot]
  constructor
  · intro h
    rcases h with h | h
    · rw [if_neg (by omega)]
    · by_cases h0 : 0 < size
      · rw [if_pos h0, pbuffer_grow_eq b _ hwf, if_pos (by rw [hu2]; rw [hu1] at h; omega)]
        rfl
      · rw [if_neg h0]
  · intro h0 hle hA
    have hg : ¬ ((size * 2) % SIZE_MOD ||| PBUFFER_MIN) < to_size (pbuffer_unused b) := by
      rw [hu2]
      rw [hu1] at hle
      omega
    obtain ⟨b', h1, h2, h3⟩ := pbuffer_grow_reallocates b _ hwf hg hA
    rw [if_pos h0, h1]
    refine ⟨b', rfl, h2, ?_⟩
    have := le_max_left (b.allocated * 2) PBUFFER_MIN
    have := le_max_right (b.allocated * 2) PBUFFER_MIN
    have hmin : PBUFFER_MIN = 120 := rfl
    omega

/-- The two cases of `pbuffer_assure_unchanged` on concrete buffers: on a buffer of 1000
zero bytes a request of 1 byte changes nothing, and on the initial buffer a request of
1 byte reallocates to 248. -/
theorem pbuffer_assure_unchanged_witness :
    pbuffer_assure ⟨0, 1000, List.replicate 1000 0, 0⟩ 1 =
        some ⟨0, 1000, List.replicate 1000 0, 0⟩ ∧
      ∃ b', pbuffer_assure initial_buffer 1 = some b' ∧
        b'.allocated = (initial_buffer.allocated * 2) ||| PBUFFER_MIN ∧
        initial_buffer.allocated < b'.allocated :=
  ⟨(pbuffer_assure_unchanged ⟨0, 1000, List.replicate 1000 0, 0⟩ 1
      (by decide) (by decide) (by decide)).1 (Or.inr (by decide)),
    (pbuffer_assure_unchanged initial_buffer 1 (by decide) (by decide) (by decide)).2
      (by decide) (by decide) (by decide)⟩

theorem pbuffer_add_assure {b b' : pbuffer} {data : List Nat} {size : Nat}
    (h : pbuffer_add b data size = some b') :
    ∃ e, pbuffer_assure b ((size + b.length) % SIZE_MOD) = some e ∧
      pbuffer_end e + size ≤ e.start.length := by
  unfold pbuffer_add at h
  cases ha : pbuffer_assure b ((size + b.length) % SIZE_MOD) with
  | none => rw [ha] at h; cases h
  | some e =>
    rw [ha] at h
    simp only at h
    cases hm : memcpy e.start (pbuffer_end e) data size with
    | none => rw [hm] at h; cases h
    | some m => exact ⟨e, rfl, (memcpy_some_bounds hm).1⟩

/-- C19: `pbuffer_shift` is `pbuffer_safe_shift` followed by `pbuffer_consume`; for a
buffer whose window lies inside its block and `n ≤ length`, every result has
`length - n`, the old content without its first `n` bytes, and the cursor 0 when
`length - n < data + n` and `data + n` otherwise; the call is defined whenever the
capacity is below `2 ^ 61`. -/
theorem pbuffer_shift_composition (b : pbuffer) (n : Nat) (hwf : pbuffer_wf b)
    (hinv : pbuffer_inv b) (hn : n ≤ b.length) :
    pbuffer_shift b n = (pbuffer_safe_shift b n).bind pbuffer_consume ∧
      (∀ b', pbuffer_shift b n = some b' →
        b'.length = b.length - n ∧
        pbuffer_content b' = (pbuffer_content b).drop n ∧
        (b.length - n < b.data + n → b'.data = 0) ∧
        (¬ b.length - n < b.data + n → b'.data = b.data + n)) ∧
      (b.allocated < 2 ^ 61 → ∃ b', pbuffer_shift b n = some b') := by
  refine ⟨?_, ?_, ?_⟩
  · unfold pbuffer_shift
    cases pbuffer_safe_shift b n <;> rfl
  · intro b' h
    obtain ⟨h1, h2, h3, -⟩ := pbuffer_shift_some hwf hinv hn h
    refine ⟨h1, h3, fun hc => ?_, fun hc => ?_⟩
    · rw [h2, if_pos hc]
    · rw [h2, if_neg hc]
  · intro hA
    obtain ⟨b', h, -⟩ := pbuffer_shift_isSome b n 61 hwf hinv hn (by decide) (by decide) hA
    exact ⟨b', h⟩

/-- Witness for C19 on `sample_buffer` with `n = 2`, where the remaining byte is moved to
the start of the block. -/
theorem pbuffer_shift_composition_witness :
    pbuffer_wf sample_buffer ∧ pbuffer_inv sample_buffer ∧ 2 ≤ sample_buffer.length ∧
      pbuffer_shift sample_buffer 2 =
        (pbuffer_safe_shift sample_buffer 2).bind pbuffer_consume ∧
      (∀ b', pbuffer_shift sample_buffer 2 = some b' →
        b'.length = sample_buffer.length - 2 ∧
        pbuffer_content b' = (pbuffer_content sample_buffer).drop 2 ∧
        (sample_buffer.length - 2 < sample_buffer.data + 2 → b'.data = 0) ∧
        (¬ sample_buffer.length - 2 < sample_buffer.data + 2 →
          b'.data = sample_buffer.data + 2)) ∧
      ∃ b', pbuffer_shift sample_buffer 2 = some b' :=
  ⟨by decide, by decide, by decide,
    (pbuffer_shift_composition sample_buffer 2 (by decide) (by decide) (by decide)).1,
    (pbuffer_shift_composition sample_buffer 2 (by decide) (by decide) (by decide)).2.1,
    (pbuffer_shift_composition sample_buffer 2 (by decide) (by decide) (by decide)).2.2
      (by decide)⟩

/-- C20: for a buffer whose window lies inside its block and a byte string no longer than
the capacity, every result of `pbuffer_add` satisfies the window invariant, has the
length increased by the size and the old content followed by the string; for a capacity
below `2 ^ 61` the call is defined, and `pbuffer_assure` leaves at least `size` unused
bytes, so the copy stays inside the block. -/
theorem pbuffer_add_bounded (b : pbuffer) (src : List Nat) (hwf : pbuffer_wf b)
    (hinv : pbuffer_inv b) (hs : src.length ≤ b.allocated) :
    (∀ b', pbuffer_add b src src.length = some b' →
        pbuffer_inv b' ∧ b'.length = b.length + src.length ∧
        pbuffer_content b' = pbuffer_content b ++ src) ∧
      (b.allocated < 2 ^ 61 →
        ∃ e b', pbuffer_assure b ((src.length + b.length) % SIZE_MOD) = some e ∧
          (src.length : Int) ≤ pbuffer_unused e ∧
          pbuffer_add b src src.length = some b') := by
  constructor
  · intro b' h
    obtain ⟨h1, -, h3, -, -, -, h7⟩ := pbuffer_add_some hwf hinv h
    rw [List.take_length] at h3
    exact ⟨h7, h1, h3⟩
  · intro hA
    have hroom : src.length + (b.data + b.length) ≤ 2 * b.allocated ∨
        src.length + (b.data + b.length) ≤ PBUFFER_MIN := by
      unfold pbuffer_inv at hinv
      omega
    obtain ⟨b', h, -⟩ := pbuffer_add_isSome b src src.length 61 hwf hinv (le_refl _) hroom
      (by decide) (by decide) hA
    obtain ⟨e, he, hfit⟩ := pbuffer_add_assure h
    obtain ⟨-, hwe⟩ := pbuffer_assure_some hwf he
    refine ⟨e, b', he, ?_, h⟩
    have := hwe.1
    unfold pbuffer_unused
    unfold pbuffer_end at hfit ⊢
    omega

/-- Witness for C20: three bytes appended to `sample_buffer`, whose capacity is 8. -/
theorem pbuffer_add_bounded_witness :
    pbuffer_wf sample_buffer ∧ pbuffer_inv sample_buffer ∧
      [4, 5, 6].length ≤ sample_buffer.allocated ∧
      (∀ b', pbuffer_add sample_buffer [4, 5, 6] [4, 5, 6].length = some b' →
        pbuffer_inv b' ∧ b'.length = sample_buffer.length + [4, 5, 6].length ∧
        pbuffer_content b' = pbuffer_content sample_buffer ++ [4, 5, 6]) ∧
      ∃ e b', pbuffer_assure sample_buffer
          (([4, 5, 6].length + sample_buffer.length) % SIZE_MOD) = some e ∧
        (([4, 5, 6].length : Nat) : Int) ≤ pbuffer_unused e ∧
        pbuffer_add sample_buffer [4, 5, 6] [4, 5, 6].length = some b' :=
  ⟨by decide, by decide, by decide,
    (pbuffer_add_bounded sample_buffer [4, 5, 6] (by decide) (by decide) (by decide)).1,
    (pbuffer_add_bounded sample_buffer [4, 5, 6] (by decide) (by decide) (by decide)).2
      (by decide)⟩

end Pbuffer
